import Mathlib

/-!
Verification of the annotation-driven replication engine of
kubernetes-replicator against its specification.

The definitions below are a shallow embedding of the Go sources:

* `src/replicate/common.go` — target patterns, permission checkers,
  target resolver, deprecated-key rewriting;
* `src/replicate/annotations.go` — the annotation vocabulary (keys are
  built from a configurable prefix string `p`);
* `src/unnamed/part_005` — the reactive engine (`ObjectAdded`,
  `ObjectDeleted`, `NamespaceAdded` and their sub-procedures);
* `src/unnamed/part_002` — the second source branch of the resolver;
* `src/replicate/configmaps.go` — the object port, modelled as
  always-succeeding state transformers that record each issued mutation.

Go maps are modelled as association lists read through first-occurrence
lookup; map iteration (unordered in Go) is determinized to first-occurrence
key order.  Go regular expressions are abstracted by a compilation oracle
`String → Option (String → Bool)` returning the anchored matcher of a
pattern, or `none` for a compilation error.  Because the Go annotation names
(`ReplicationSourceAnnotation`, …) do not transliterate well, the keys are
named `kFrom`, `kTo`, `kToNs`, `kOnce`, `kOnceVer`, `kAt`, `kBy`, `kVer`,
`kAllowed`, `kAllowedNs`, `kOldVer` in the order of `annotations.go`.
-/

set_option maxHeartbeats 1000000

namespace Replicator

/-! ### Association maps (Go `map[string]string`) -/

/-- Annotation / label maps: association lists, first occurrence wins. -/
abbrev AnnMap := List (String × String)

/-- Map lookup (`v, ok := m[k]`). -/
def getA (m : AnnMap) (k : String) : Option String :=
  (m.find? (fun q => q.1 == k)).map (fun q => q.2)

/-- Map lookup with Go zero value (`m[k]` when the key may be absent). -/
def getD (m : AnnMap) (k : String) : String :=
  (getA m k).getD ""

/-- Map write (`m[k] = v`). -/
def setA (m : AnnMap) (k v : String) : AnnMap :=
  m.filter (fun q => q.1 != k) ++ [(k, v)]

/-- Map delete (`delete(m, k)`). -/
def delA (m : AnnMap) (k : String) : AnnMap :=
  m.filter (fun q => q.1 != k)

/-- The distinct keys of a map, in first-occurrence order. -/
def keysA (m : AnnMap) : List String :=
  (m.map Prod.fst).dedup

/-- Number of entries (`len(m)`). -/
def lenA (m : AnnMap) : Nat :=
  (keysA m).length

/-! ### Go standard library helpers -/

/-- `strconv.ParseBool`. -/
def parseBool (s : String) : Option Bool :=
  if s = "1" ∨ s = "t" ∨ s = "T" ∨ s = "true" ∨ s = "TRUE" ∨ s = "True" then
    some true
  else if s = "0" ∨ s = "f" ∨ s = "F" ∨ s = "false" ∨ s = "FALSE" ∨ s = "False" then
    some false
  else
    none

/-- Split a character list at the first occurrence of `c`. -/
def splitFirst (c : Char) : List Char → Option (List Char × List Char)
  | [] => none
  | d :: ds =>
    if d = c then some ([], ds)
    else (splitFirst c ds).map (fun q => (d :: q.1, q.2))

/-- `strings.SplitN(s, "/", 2)`. -/
def splitN2 (s : String) : List String :=
  match splitFirst '/' s.data with
  | none => [s]
  | some (a, b) => [⟨a⟩, ⟨b⟩]

/-- `strings.SplitN(s, "/", 3)`. -/
def splitN3 (s : String) : List String :=
  match splitFirst '/' s.data with
  | none => [s]
  | some (a, b) =>
    match splitFirst '/' b with
    | none => [⟨a⟩, ⟨b⟩]
    | some (c', d) => [⟨a⟩, ⟨c'⟩, ⟨d⟩]

/-- Split a character list at every occurrence of `c`. -/
def splitOnChar (c : Char) : List Char → List (List Char)
  | [] => [[]]
  | d :: ds =>
    if d = c then [] :: splitOnChar c ds
    else
      match splitOnChar c ds with
      | [] => [[d]]
      | h :: t => (d :: h) :: t

/-- `strings.Split(s, ",")`. -/
def splitComma (s : String) : List String :=
  (splitOnChar ',' s.data).map (fun l => ⟨l⟩)

/-- `strings.Split(s, ".")`. -/
def splitDot (s : String) : List String :=
  (splitOnChar '.' s.data).map (fun l => ⟨l⟩)

/-- `strings.HasPrefix`. -/
def strStarts (s pre : String) : Bool :=
  pre.data.isPrefixOf s.data

/-- `strings.ContainsAny(s, "/")`. -/
def hasSlash (s : String) : Bool :=
  s.data.contains '/'

/-- A character of the class `[0-9a-z.-]`. -/
def isNameChar (c : Char) : Bool :=
  (decide ('0' ≤ c) && decide (c ≤ '9')) ||
  (decide ('a' ≤ c) && decide (c ≤ 'z')) ||
  c == '.' || c == '-'

/-- `validName.MatchString` for the pattern `^[0-9a-z.-]+$`. -/
def isValidName (s : String) : Bool :=
  !s.data.isEmpty && s.data.all isNameChar

/-- `validPath.MatchString` for the pattern `^[0-9a-z.-]+/[0-9a-z.-]+$`. -/
def isValidPath (s : String) : Bool :=
  match splitN2 s with
  | [a, b] => isValidName a && isValidName b
  | _ => false

/-! ### Semantic versions

Modelled from the spec: the engine delegates version parsing and comparison
to the external Masterminds semver dependency; spec §9 requires the standard
semver grammar (`major.minor.patch`, optional pre-release and build
metadata, 1–3 numeric parts, optional leading `v`) and standard precedence.
-/

/-- A parsed semantic version; build metadata is dropped (it never affects
precedence). -/
structure SemVer where
  major : Nat
  minor : Nat
  patch : Nat
  pre : List String
deriving DecidableEq, Repr

/-- A non-empty all-digit string. -/
def isDigits (s : String) : Bool :=
  !s.data.isEmpty && s.data.all Char.isDigit

/-- Numeric value of a digit string. -/
def natOf (s : String) : Nat :=
  s.data.foldl (fun n c => n * 10 + (c.toNat - 48)) 0

/-- A character allowed in a pre-release / build identifier. -/
def isIdentChar (c : Char) : Bool :=
  c.isAlphanum || c == '-'

/-- A valid dot-separated identifier sequence. -/
def validIdents (s : String) : Bool :=
  (splitDot s).all (fun i => !i.data.isEmpty && i.data.all isIdentChar)

/-- `semver.NewVersion`: optional leading `v`, 1–3 numeric parts, optional
`-pre` and `+meta` suffixes. -/
def parseSemVer (s : String) : Option SemVer :=
  let s1 : String :=
    match s.data with
    | 'v' :: t => ⟨t⟩
    | _ => s
  let (core1, metaPart) :=
    match splitFirst '+' s1.data with
    | none => ((⟨s1.data⟩ : String), none)
    | some (a, b) => ((⟨a⟩ : String), some (⟨b⟩ : String))
  let (core, prePart) :=
    match splitFirst '-' core1.data with
    | none => (core1, none)
    | some (a, b) => ((⟨a⟩ : String), some (⟨b⟩ : String))
  match metaPart with
  | some mp => if validIdents mp then parseSemVerCore core prePart else none
  | none => parseSemVerCore core prePart
where
  parseSemVerCore (core : String) (prePart : Option String) : Option SemVer :=
    let pre? : Option (List String) :=
      match prePart with
      | none => some []
      | some pp => if validIdents pp then some (pp.splitOn (".")) else none
    match pre? with
    | none => none
    | some pre =>
      match (splitDot core).map (fun q => (q, isDigits q)) with
      | [(a, true)] => some ⟨natOf a, 0, 0, pre⟩
      | [(a, true), (b, true)] => some ⟨natOf a, natOf b, 0, pre⟩
      | [(a, true), (b, true), (c, true)] => some ⟨natOf a, natOf b, natOf c, pre⟩
      | _ => none

/-- Precedence of two pre-release identifiers. -/
def cmpIdent (a b : String) : Ordering :=
  if isDigits a && isDigits b then compare (natOf a) (natOf b)
  else if isDigits a then .lt
  else if isDigits b then .gt
  else compare a b

/-- Precedence of two non-empty pre-release identifier lists. -/
def cmpPreList : List String → List String → Ordering
  | [], [] => .eq
  | [], _ :: _ => .lt
  | _ :: _, [] => .gt
  | a :: as, b :: bs =>
    match cmpIdent a b with
    | .eq => cmpPreList as bs
    | o => o

/-- Semver precedence (`Version.Compare`); an absent pre-release ranks above
any pre-release. -/
def svCompare (a b : SemVer) : Ordering :=
  match compare a.major b.major with
  | .eq =>
    match compare a.minor b.minor with
    | .eq =>
      match compare a.patch b.patch with
      | .eq =>
        match a.pre, b.pre with
        | [], [] => .eq
        | [], _ :: _ => .gt
        | _ :: _, [] => .lt
        | p, q => cmpPreList p q
      | o => o
    | o => o
  | o => o

/-- `Version.GreaterThan`. -/
def svGT (a b : SemVer) : Bool :=
  svCompare a b == .gt

/-- `Version.Equal`. -/
def svEq (a b : SemVer) : Bool :=
  svCompare a b == .eq

/-- The version `semver.NewVersion("0")` compared against in
`needsDataUpdate`. -/
def semverZero : SemVer := ⟨0, 0, 0, []⟩

/-! ### The annotation vocabulary (`annotations.go`)

Each effective key is the configured prefix `p` followed by the logical
name.  `checkedKey` is the internal, never-persisted sentinel
`CheckedAnnotation`.
-/

/-- `CheckedAnnotation = "#checked#"`. -/
def checkedKey : String := "#checked#"

/-- `ReplicationSourceAnnotation` (`replicate-from`). -/
def kFrom (p : String) : String := p ++ "replicate-from"

/-- `ReplicationTargetsAnnotation` (`replicate-to`). -/
def kTo (p : String) : String := p ++ "replicate-to"

/-- `TargetNamespacesAnnotation` (`replicate-to-namespaces`). -/
def kToNs (p : String) : String := p ++ "replicate-to-namespaces"

/-- `ReplicateOnceAnnotation` (`replicate-once`). -/
def kOnce (p : String) : String := p ++ "replicate-once"

/-- `ReplicateOnceVersionAnnotation` (`replicate-once-version`). -/
def kOnceVer (p : String) : String := p ++ "replicate-once-version"

/-- `ReplicationTimeAnnotation` (`replicated-at`). -/
def kAt (p : String) : String := p ++ "replicated-at"

/-- `CreatedByAnnotation` (`replicated-by`). -/
def kBy (p : String) : String := p ++ "replicated-by"

/-- `ReplicatedVersionAnnotation` (`replicated-version`). -/
def kVer (p : String) : String := p ++ "replicated-version"

/-- `ReplicationAllowedAnnotation` (`replication-allowed`). -/
def kAllowed (p : String) : String := p ++ "replication-allowed"

/-- `AllowedNamespacesAnnotation` (`replication-allowed-namespaces`). -/
def kAllowedNs (p : String) : String := p ++ "replication-allowed-namespaces"

/-- The deprecated logical key `replicated-from-version`. -/
def kOldVer (p : String) : String := p ++ "replicated-from-version"

/-- `AllAnnotations`: the ten live prefixed keys. -/
def allKeys (p : String) : List String :=
  [kFrom p, kTo p, kToNs p, kOnce p, kOnceVer p, kAt p, kBy p, kVer p,
   kAllowed p, kAllowedNs p]

/-- `DeprecatedAnnotations`: old key to replacement key. -/
def depMap (p : String) : AnnMap :=
  [(kOldVer p, kVer p)]

/-- `CopyLabels`. -/
def copyLabels : AnnMap :=
  [("managed-by", "kubernetes-replicator")]

/-- The default annotation prefix installed by `init()`. -/
def defaultPfx : String := "kubernetes-replicator/"

/-! ### Object metadata -/

/-- `metav1.ObjectMeta`, restricted to the fields the engine reads. -/
structure ObjMeta where
  ns : String
  name : String
  resourceVersion : String
  annotations : AnnMap
  labels : AnnMap
deriving DecidableEq, Repr

/-- The canonical store key `"{namespace}/{name}"`. -/
def keyOf (m : ObjMeta) : String :=
  m.ns ++ "/" ++ m.name

/-- `resolveAnnotation`: qualify a bare name with the object namespace. -/
def resolveAnn (m : ObjMeta) (k : String) : Option String :=
  match getA m.annotations k with
  | none => none
  | some v => if hasSlash v then some v else some (m.ns ++ "/" ++ v)

/-- `annotationRefersTo`. -/
def annRefersTo (m : ObjMeta) (k : String) (ref : ObjMeta) : Bool :=
  match getA m.annotations k with
  | none => false
  | some v =>
    match splitN2 v with
    | [a, b] => a == ref.ns && b == ref.name
    | _ => m.ns == ref.ns && v == ref.name

/-- `isReplicatedBy`: the target carries `replicated-by` naming the source. -/
def isReplicatedBy (p : String) (obj src : ObjMeta) : Bool :=
  match getA obj.annotations (kBy p) with
  | none => false
  | some v => v == keyOf src

/-- `needsCopyLabelsUpdate`. -/
def needsCopyLabelsUpdate (obj : ObjMeta) : Bool :=
  lenA obj.labels != lenA copyLabels ||
  copyLabels.any (fun kv => getD obj.labels kv.1 != kv.2)

/-! ### Permission checker (`isReplicationAllowedAnnotation`)

The Go function returns `(allowed, disallowed, err)` with the three
realizable outcomes `(true,false,nil)`, `(false,true,err)` and
`(false,false,err)`; they are modelled by `PermRes`.
-/

/-- Outcome of `isReplicationAllowedAnnotation`. -/
inductive PermRes where
  | allowed
  | disallowed
  | errP
deriving DecidableEq, Repr

/-- The loop over `replication-allowed-namespaces` entries; `none` models the
early error return on a regex compilation failure, otherwise the final
`allowed` flag is produced. -/
def allowedNsLoop (oracle : String → Option (String → Bool)) (targetNs : String) :
    List String → Bool → Option Bool
  | [], acc => some acc
  | ns :: rest, acc =>
    if ns = "" then allowedNsLoop oracle targetNs rest acc
    else if isValidName ns then
      allowedNsLoop oracle targetNs rest (acc || ns == targetNs)
    else
      match oracle ns with
      | some f => allowedNsLoop oracle targetNs rest (acc || f targetNs)
      | none => none

/-- Final step of the permission check: a source that itself carries
`replicate-from` produces an error. -/
def isRepAllowedAnn3 (p : String) (src : ObjMeta) : PermRes :=
  match resolveAnn src (kFrom p) with
  | some _ => .errP
  | none => .allowed

/-- Namespace-restriction step of the permission check. -/
def isRepAllowedAnn2 (oracle : String → Option (String → Bool)) (p : String)
    (obj src : ObjMeta) (annNs : Option String) : PermRes :=
  match annNs with
  | some nsv =>
    match allowedNsLoop oracle obj.ns (splitComma nsv) false with
    | none => .errP
    | some false => .disallowed
    | some true => isRepAllowedAnn3 p src
  | none => isRepAllowedAnn3 p src

/-- `isReplicationAllowedAnnotation` from `common.go`. -/
def isRepAllowedAnn (allowAll : Bool) (oracle : String → Option (String → Bool))
    (p : String) (obj src : ObjMeta) : PermRes :=
  let annA := getA src.annotations (kAllowed p)
  let annNs := getA src.annotations (kAllowedNs p)
  if !allowAll && annA.isNone && annNs.isNone then .disallowed
  else
    match annA with
    | some v =>
      match parseBool v with
      | none => .errP
      | some false => .disallowed
      | some true => isRepAllowedAnn2 oracle p obj src annNs
    | none => isRepAllowedAnn2 oracle p obj src annNs

/-! ### `needsDataUpdate`

The Go function returns `(needed, once, err)`; `err` is non-nil exactly when
`needed` is false, so the result is modelled as the pair of booleans
`(needed, once)`.
-/

/-- Tail of `needsDataUpdate` once the combined `once` flag is known:
the `replicate-once-version` chain. -/
def nduOnceChain (p : String) (obj src : ObjMeta) (hasOnce : Bool) : Bool × Bool :=
  if !hasOnce then (true, false)
  else
    match getA src.annotations (kOnceVer p) with
    | none => (false, true)
    | some sv =>
      match parseSemVer sv with
      | none => (false, false)
      | some sver =>
        if svEq sver semverZero then (false, true)
        else
          match getA obj.annotations (kOnceVer p) with
          | none => (true, false)
          | some tv =>
            match parseSemVer tv with
            | none => (false, false)
            | some tver =>
              if svGT sver tver then (true, false) else (false, true)

/-- Target-side `replicate-once` flag parsing step of `needsDataUpdate`. -/
def nduTargetOnce (p : String) (obj src : ObjMeta) (srcOnce : Bool) : Bool × Bool :=
  match getA obj.annotations (kOnce p) with
  | none => nduOnceChain p obj src srcOnce
  | some v =>
    match parseBool v with
    | none => (false, false)
    | some b => nduOnceChain p obj src (srcOnce || b)

/-- `needsDataUpdate` from `common.go`. -/
def needsDataUpdate (p : String) (obj src : ObjMeta) : Bool × Bool :=
  match getA obj.annotations (kVer p) with
  | none => (true, false)
  | some tv =>
    if tv == src.resourceVersion then (false, false)
    else
      match getA src.annotations (kOnce p) with
      | none => nduTargetOnce p obj src false
      | some v =>
        match parseBool v with
        | none => (false, false)
        | some b => nduTargetOnce p obj src b

/-! ### Target patterns (`targetPattern` in `common.go`)

A compiled Go regex is modelled as its anchored source string together with
an opaque total matcher. -/

/-- A compiled `*regexp.Regexp`: source string and matcher. -/
structure Rgx where
  src : String
  test : String → Bool

/-- `targetPattern`. -/
structure TargetPattern where
  rgx : Rgx
  name : String

/-- `targetPattern.Match`. -/
def tpMatch (tp : TargetPattern) (m : ObjMeta) : Bool :=
  m.name == tp.name && tp.rgx.test m.ns

/-- `targetPattern.MatchString`. -/
def tpMatchString (tp : TargetPattern) (target : String) : Bool :=
  match splitN2 target with
  | [a, b] => b == tp.name && tp.rgx.test a
  | _ => false

/-- `targetPattern.MatchNamespace`. -/
def tpMatchNamespace (tp : TargetPattern) (ns : String) : String :=
  if tp.rgx.test ns then ns ++ "/" ++ tp.name else ""

/-- `targetPattern.Targets`. -/
def tpTargets (tp : TargetPattern) (nss : List String) : List String :=
  (nss.filter (fun ns => tp.rgx.test ns)).map (fun ns => ns ++ "/" ++ tp.name)

/-- The anchored source handed to `regexp.Compile` (`"^(?:" + ns + ")$"`). -/
def anch (ns : String) : String :=
  "^(?:" ++ ns ++ ")$"

/-! ### The target resolver (`getReplicationTargets`)

`grtCore` is the common body of the two source branches, which differ only
in how the excluded self key is computed (`common.go` uses
`namespace/name`, `part_002` uses `name/namespace`). -/

/-- Lookup in the compiled-pattern cache. -/
def getR (m : List (String × Rgx)) (k : String) : Option Rgx :=
  (m.find? (fun q => q.1 == k)).map (fun q => q.2)

/-- Write to the compiled-pattern cache. -/
def setR (m : List (String × Rgx)) (k : String) (v : Rgx) : List (String × Rgx) :=
  m.filter (fun q => q.1 != k) ++ [(k, v)]

/-- Append if not already present (Go set-map insertion, determinized to
insertion order). -/
def addIfNew (x : String) (l : List String) : List String :=
  if l.contains x then l else l ++ [x]

/-- Result of `getReplicationTargets`: Go distinguishes the `nil, nil, nil`
result (neither annotation present) from empty slices. -/
inductive GrtRes where
  | noAnn
  | errG
  | ok (targets : List String) (pats : List TargetPattern)

/-- Accumulator of the resolver: seen qualified paths, emitted literal
targets, emitted patterns, compiled-pattern cache. -/
structure GrtAcc where
  seen : List String
  targets : List String
  pats : List TargetPattern
  cache : List (String × Rgx)

/-- Splitting of the `replicate-to` list into bare names and qualified
paths; `none` models the invalid-name error. -/
def grtSplitTo : List String → List String → List String → Option (List String × List String)
  | [], names, qualified => some (names, qualified)
  | n :: rest, names, qualified =>
    if n = "" then grtSplitTo rest names qualified
    else if hasSlash n then grtSplitTo rest names (addIfNew n qualified)
    else if isValidName n then grtSplitTo rest (addIfNew n names) qualified
    else none

/-- Splitting of the `replicate-to-namespaces` list; `none` models the
slash-in-pattern error. -/
def grtSplitNs : List String → List String → Option (List String)
  | [], acc => some acc
  | ns :: rest, acc =>
    if hasSlash ns then none
    else if ns = "" then grtSplitNs rest acc
    else grtSplitNs rest (addIfNew ns acc)

/-- Emit the cross product of one literal namespace with all names, guarded
by the seen set. -/
def grtEmitLits (ns : String) : List String → GrtAcc → GrtAcc
  | [], acc => acc
  | n :: rest, acc =>
    let full := ns ++ "/" ++ n
    if acc.seen.contains full then grtEmitLits ns rest acc
    else
      grtEmitLits ns rest
        { acc with seen := acc.seen ++ [full], targets := acc.targets ++ [full] }

/-- Emit the cross product of one pattern namespace with all names, guarded
by the seen set. -/
def grtEmitPats (rg : Rgx) (ns : String) : List String → GrtAcc → GrtAcc
  | [], acc => acc
  | n :: rest, acc =>
    let full := ns ++ "/" ++ n
    if acc.seen.contains full then grtEmitPats rg ns rest acc
    else
      grtEmitPats rg ns rest
        { acc with seen := acc.seen ++ [full], pats := acc.pats ++ [⟨rg, n⟩] }

/-- The loop joining namespaces and names; `none` models a regex
compilation error. -/
def grtNsLoop (oracle : String → Option (String → Bool)) (names : List String) :
    List String → GrtAcc → Option GrtAcc
  | [], acc => some acc
  | ns :: rest, acc =>
    if isValidName ns then grtNsLoop oracle names rest (grtEmitLits ns names acc)
    else
      match oracle ns with
      | some f =>
        let rg : Rgx := ⟨anch ns, f⟩
        grtNsLoop oracle names rest
          (grtEmitPats rg ns names { acc with cache := setR acc.cache ns rg })
      | none => none

/-- The loop over qualified names; `none` models the three error cases
(more than one slash, invalid name part, regex compilation failure). -/
def grtQualLoop (oracle : String → Option (String → Bool)) :
    List String → GrtAcc → Option GrtAcc
  | [], acc => some acc
  | q :: rest, acc =>
    if acc.seen.contains q then grtQualLoop oracle rest acc
    else
      match splitN3 q with
      | [a, b] =>
        if !isValidName b then none
        else if isValidName a then
          grtQualLoop oracle rest { acc with targets := acc.targets ++ [q] }
        else
          match getR acc.cache a with
          | some rg =>
            grtQualLoop oracle rest { acc with pats := acc.pats ++ [⟨rg, b⟩] }
          | none =>
            match oracle a with
            | some f =>
              grtQualLoop oracle rest
                { acc with cache := setR acc.cache a ⟨anch a, f⟩,
                           pats := acc.pats ++ [⟨⟨anch a, f⟩, b⟩] }
            | none => none
      | _ => none

/-- Common body of `getReplicationTargets`; `seed` is `r.watchedPatterns[key]`
(used to pre-populate the compiled-pattern cache) and `selfKey` the key
excluded from the literal targets. -/
def grtCore (oracle : String → Option (String → Bool)) (p : String)
    (seed : List TargetPattern) (selfKey : String) (m : ObjMeta) : GrtRes :=
  match getA m.annotations (kTo p), getA m.annotations (kToNs p) with
  | none, none => .noAnn
  | annTo, annToNs =>
    let namesQ : Option (List String × List String) :=
      match annTo with
      | none => some ([m.name], [])
      | some v => grtSplitTo (splitComma v) [] []
    match namesQ with
    | none => .errG
    | some (names, qualified) =>
      let nss : Option (List String) :=
        match annToNs with
        | none => some [m.ns]
        | some v => grtSplitNs (splitComma v) []
      match nss with
      | none => .errG
      | some namespaces =>
        let cache0 := seed.foldl (fun acc tp => setR acc tp.rgx.src tp.rgx) []
        match grtNsLoop oracle names namespaces ⟨[selfKey], [], [], cache0⟩ with
        | none => .errG
        | some acc1 =>
          match grtQualLoop oracle qualified acc1 with
          | none => .errG
          | some acc2 => .ok acc2.targets acc2.pats

/-- `getReplicationTargets` from `common.go` (self key `namespace/name`). -/
def getReplicationTargets (oracle : String → Option (String → Bool)) (p : String)
    (seed : List TargetPattern) (m : ObjMeta) : GrtRes :=
  grtCore oracle p seed (m.ns ++ "/" ++ m.name) m

/-- `getReplicationTargets` from the second source branch (`part_002`), whose
self key is computed as `fmt.Sprintf("%s/%s", object.Name, object.Namespace)`. -/
def getReplicationTargetsB (oracle : String → Option (String → Bool)) (p : String)
    (seed : List TargetPattern) (m : ObjMeta) : GrtRes :=
  grtCore oracle p seed (m.name ++ "/" ++ m.ns) m

/-- `isReplicatedTo`; `none` models the resolution error. -/
def isReplicatedTo (oracle : String → Option (String → Bool)) (p : String)
    (seed : List TargetPattern) (src target : ObjMeta) : Option Bool :=
  match getReplicationTargets oracle p seed src with
  | .errG => none
  | .noAnn => some false
  | .ok ts ps => some (ts.contains (keyOf target) || ps.any (fun tp => tpMatch tp target))

/-! ### Remaining pure checkers -/

/-- `needsFromAnnotationsUpdate`; `none` models the error returns. -/
def needsFromAnnUpd (p : String) (obj src : ObjMeta) : Option Bool :=
  let u0 := needsCopyLabelsUpdate obj
  match resolveAnn src (kFrom p) with
  | none => none
  | some source =>
    if !isValidPath source || source == keyOf src then none
    else
      let u1 := u0 ||
        (match getA obj.annotations (kFrom p) with
         | none => true
         | some v => v != source)
      match getA src.annotations (kOnce p) with
      | some sv =>
        if (parseBool sv).isNone then none
        else
          some (u1 ||
            (match getA obj.annotations (kOnce p) with
             | none => true
             | some v => v != sv))
      | none => some (u1 || (getA obj.annotations (kOnce p)).isSome)

/-- `needsAllowedAnnotationsUpdate`; `none` models the error returns. -/
def needsAllowedAnnUpd (oracle : String → Option (String → Bool)) (p : String)
    (obj src : ObjMeta) : Option Bool :=
  let aS := getA src.annotations (kAllowed p)
  let nS := getA src.annotations (kAllowedNs p)
  let u1 := needsCopyLabelsUpdate obj ||
    (match getA obj.annotations (kAllowed p), aS with
     | some v, some w => v != w
     | none, none => false
     | _, _ => true)
  let u2 := u1 ||
    (match getA obj.annotations (kAllowedNs p), nS with
     | some v, some w => v != w
     | none, none => false
     | _, _ => true)
  if !u2 then some false
  else
    let okA :=
      match aS with
      | none => true
      | some v => (parseBool v).isSome
    let okNs :=
      match nS with
      | none => true
      | some v =>
        (splitComma v).all (fun ns => ns == "" || isValidName ns || (oracle ns).isSome)
    if okA && okNs then some true else none

/-! ### Deprecated-annotation rewriting (`updateDeprecatedAnnotations`) -/

/-- Result of `updateDeprecatedAnnotations` (`(bool, error)` in Go). -/
inductive UpdRes where
  | okU (changed : Bool)
  | errU
deriving DecidableEq, Repr

/-- The deprecated keys present in the map (`update` in Go, in determinized
map-iteration order). -/
def depKeysOf (p : String) (anns : AnnMap) : List String :=
  (keysA anns).filter (fun a => (getA (depMap p) a).isSome)

/-- The `valid` flag of the scan loop: no unknown key under the prefix
(checked only when the prefix contains a slash). -/
def validScan (p : String) (anns : AnnMap) : Bool :=
  (keysA anns).all (fun a =>
    (getA (depMap p) a).isSome || !(hasSlash p) || (allKeys p).contains a ||
    !(strStarts a p))

/-- The rewrite loop over the deprecated keys: copy the value to the
replacement key when absent there, then delete the old key. -/
def depRewrite (p : String) (anns : AnnMap) : AnnMap :=
  (depKeysOf p anns).foldl (fun acc old =>
    let newK := getD (depMap p) old
    let acc1 := if (getA acc newK).isSome then acc else setA acc newK (getD acc old)
    delA acc1 old) (setA anns checkedKey ("update"))

/-- `updateDeprecatedAnnotations` from `common.go`.  The Go function mutates
the annotation map in place; the model returns the result together with the
new map.  Go map iteration is determinized to first-occurrence key order. -/
def updDepAnn (p : String) (anns : AnnMap) : UpdRes × AnnMap :=
  match getA anns checkedKey with
  | some v =>
    if v = "valid" then (.okU false, anns)
    else if v = "update" then (.okU true, anns)
    else (.errU, anns)
  | none =>
    if !(validScan p anns) then (.errU, setA anns checkedKey ("error"))
    else if (depKeysOf p anns).isEmpty then (.okU false, setA anns checkedKey ("valid"))
    else (.okU true, depRewrite p anns)

/-! ### Engine state (`objectReplicator`, `part_005`)

The informer stores are modelled as in `client-go` `cache.Store`: the object
store is indexed by the canonical key of the stored object itself.  The
object port (`replicatorActions`, bound by `configmaps.go` / `secrets.go`)
is modelled as always-succeeding state transformers over an opaque `data`
payload; every issued mutation is recorded in a trace, and the cluster
assigns a fresh resource version to every written object. -/

/-- A watched cluster object: metadata plus opaque payload. -/
structure Obj where
  meta : ObjMeta
  data : String
deriving DecidableEq, Repr

/-- A mutation issued through the object port. -/
inductive Mut where
  | updM (obj src : Obj) (anns : AnnMap)
  | clearM (obj : Obj) (anns : AnnMap)
  | installM (m : ObjMeta) (src : Obj) (dataObj : Option Obj)
  | delM (obj : Obj)
deriving DecidableEq, Repr

/-- The replicator's mutable state: the two informer snapshot stores, the
four index maps, a fresh-version counter and the mutation trace. -/
structure EngState where
  objects : List Obj
  namespaces : List String
  targetsFrom : List (String × List String)
  targetsTo : List (String × List String)
  watchedTargets : List (String × List String)
  watchedPatterns : List (String × List TargetPattern)
  verCtr : Nat
  trace : List Mut

/-- Engine configuration: annotation prefix, allow-all flag, the regex
compilation oracle and the current wall-clock timestamp. -/
structure Ctx where
  pfx : String
  allowAll : Bool
  oracle : String → Option (String → Bool)
  now : String

/-! Index-map helpers (`map[string][]T`). -/

/-- Index lookup. -/
def getI {α : Type} (m : List (String × List α)) (k : String) : Option (List α) :=
  (m.find? (fun q => q.1 == k)).map (fun q => q.2)

/-- Index write. -/
def setI {α : Type} (m : List (String × List α)) (k : String) (v : List α) :
    List (String × List α) :=
  m.filter (fun q => q.1 != k) ++ [(k, v)]

/-- Index delete. -/
def eraseI {α : Type} (m : List (String × List α)) (k : String) :
    List (String × List α) :=
  m.filter (fun q => q.1 != k)

/-- `cache.Store.GetByKey` on the object store. -/
def lookupS (objs : List Obj) (k : String) : Option Obj :=
  objs.find? (fun o => keyOf o.meta == k)

/-- `cache.Store.Update`: replace by the canonical key of the object. -/
def storePut (objs : List Obj) (o : Obj) : List Obj :=
  objs.filter (fun x => keyOf x.meta != keyOf o.meta) ++ [o]

/-- `cache.Store.Delete`. -/
def storeDel (objs : List Obj) (o : Obj) : List Obj :=
  objs.filter (fun x => keyOf x.meta != keyOf o.meta)

/-- Drop `watchedTargets[key]` and `watchedPatterns[key]`. -/
def dropWatched (s : EngState) (key : String) : EngState :=
  { s with watchedTargets := eraseI s.watchedTargets key,
           watchedPatterns := eraseI s.watchedPatterns key }

/-- First component of `strings.SplitN(t, "/", 2)`. -/
def headNs (t : String) : String :=
  match splitN2 t with
  | a :: _ => a
  | [] => t

/-- The resource version assigned by the cluster to the `n`-th write. -/
def newVer (n : Nat) : String :=
  "w" ++ toString n

/-! The object port (`replicatorActions`, concrete binding `configmaps.go`),
as always-succeeding transformers recording the issued mutation. -/

/-- `replicatorActions.update`: same object, given annotations, data deep
copied from the source. -/
def actUpdate (s : EngState) (obj src : Obj) (anns : AnnMap) : Obj × EngState :=
  (⟨{ obj.meta with annotations := anns, resourceVersion := newVer s.verCtr }, src.data⟩,
   { s with verCtr := s.verCtr + 1, trace := s.trace ++ [.updM obj src anns] })

/-- `replicatorActions.clear`: same object, given annotations, data emptied. -/
def actClear (s : EngState) (obj : Obj) (anns : AnnMap) : Obj × EngState :=
  (⟨{ obj.meta with annotations := anns, resourceVersion := newVer s.verCtr }, ""⟩,
   { s with verCtr := s.verCtr + 1, trace := s.trace ++ [.clearM obj anns] })

/-- `replicatorActions.install`: create or replace an object with the given
metadata and the data of `dataObj`. -/
def actInstall (s : EngState) (m : ObjMeta) (src : Obj) (dataObj : Option Obj) :
    Obj × EngState :=
  (⟨{ m with resourceVersion := newVer s.verCtr },
    match dataObj with
    | none => ""
    | some d' => d'.data⟩,
   { s with verCtr := s.verCtr + 1, trace := s.trace ++ [.installM m src dataObj] })

/-- `replicatorActions.delete` (version-guarded on the cluster side). -/
def actDelete (s : EngState) (obj : Obj) : EngState :=
  { s with trace := s.trace ++ [.delM obj] }

/-! ### `objectFromStore` and the engine sub-procedures (`part_005`) -/

/-- Result of `objectFromStore`. -/
inductive FetchRes where
  | errF
  | absent
  | found (o : Obj)

/-- `objectFromStore`.  On a missing object or a failing deprecation rewrite
the watched index entries for the key are dropped.  In Go the deprecation
rewrite also mutates the stored object in place; as the rewrite is
deterministic and recomputed on every fetch, the model applies it to the
returned copy only. -/
def fetch (p : String) (s : EngState) (key : String) (mustExist : Bool) :
    FetchRes × EngState :=
  match lookupS s.objects key with
  | none =>
    (if mustExist then .errF else .absent, dropWatched s key)
  | some o =>
    match updDepAnn p o.meta.annotations with
    | (.errU, _) => (.errF, dropWatched s key)
    | (.okU _, anns2) =>
      (.found { o with meta := { o.meta with annotations := anns2 } }, s)

/-- `doClearObject`: strip the replication annotations and clear the data;
a target without `replicated-version` is already clear. -/
def doClearObject (c : Ctx) (s : EngState) (obj : Obj) : EngState :=
  match getA obj.meta.annotations (kVer c.pfx) with
  | none => s
  | some _ =>
    let anns := delA obj.meta.annotations checkedKey
    let anns := setA anns (kAt c.pfx) c.now
    let anns := delA anns (kVer c.pfx)
    let anns := delA anns (kOnceVer c.pfx)
    let (o2, s1) := actClear s obj anns
    { s1 with objects := storePut s1.objects o2 }

/-- `doDeleteObject`. -/
def doDeleteObject (s : EngState) (obj : Obj) : EngState :=
  let s1 := actDelete s obj
  { s1 with objects := storeDel s1.objects obj }

/-- `doInstallObject`: strip the internal sentinel and install (the context
is unused because the sentinel key is not prefixed). -/
def doInstallObject (_c : Ctx) (s : EngState) (m : ObjMeta) (srcObj : Obj)
    (dataObj : Option Obj) : EngState :=
  let m2 := { m with annotations := delA m.annotations checkedKey }
  let (o2, s1) := actInstall s m2 srcObj dataObj
  { s1 with objects := storePut s1.objects o2 }

/-- `replicateObject` (pull): permission check, need check, then update with
the source data; a formerly replicated but now disallowed target is
cleared. -/
def replicateObject (c : Ctx) (s : EngState) (obj srcObj : Obj) : EngState :=
  let m := obj.meta
  let sm := srcObj.meta
  let replicated := (getA m.annotations (kVer c.pfx)).isSome
  match isRepAllowedAnn c.allowAll c.oracle c.pfx m sm with
  | .disallowed => if replicated then doClearObject c s obj else s
  | .errP => s
  | .allowed =>
    match needsDataUpdate c.pfx m sm with
    | (false, _) => s
    | (true, _) =>
      let anns := delA m.annotations checkedKey
      let anns := setA anns (kAt c.pfx) c.now
      let anns := setA anns (kVer c.pfx) sm.resourceVersion
      let anns :=
        match getA sm.annotations (kOnceVer c.pfx) with
        | some v => setA anns (kOnceVer c.pfx) v
        | none => delA anns (kOnceVer c.pfx)
      let (o2, s1) := actUpdate s obj srcObj anns
      { s1 with objects := storePut s1.objects o2 }

/-- Bottom section of `installObject`: install carrying the source data and
the full replication annotation set. -/
def installObject3 (c : Ctx) (s : EngState) (tns tname : String)
    (tObj : Option Obj) (srcObj : Obj) : Bool × EngState :=
  let sm := srcObj.meta
  let anns : AnnMap :=
    [(kAt c.pfx, c.now), (kBy c.pfx, keyOf sm), (kVer c.pfx, sm.resourceVersion)]
  let anns :=
    match getA sm.annotations (kOnceVer c.pfx) with
    | some v => anns ++ [(kOnceVer c.pfx, v)]
    | none => anns
  let anns :=
    match getA sm.annotations (kAllowed c.pfx) with
    | some v => anns ++ [(kAllowed c.pfx, v)]
    | none => anns
  let anns :=
    match getA sm.annotations (kAllowedNs c.pfx) with
    | some v => anns ++ [(kAllowedNs c.pfx, v)]
    | none => anns
  let rv :=
    match tObj with
    | some t => t.meta.resourceVersion
    | none => ""
  (false, doInstallObject c s ⟨tns, tname, rv, anns, copyLabels⟩ srcObj (some srcObj))

/-- Middle section of `installObject`, after the target metadata is known:
relay installation when the source itself pulls, annotation-only
reconciliation for an up-to-date once-frozen target, or full data install. -/
def installObject2 (c : Ctx) (s : EngState) (tns tname : String)
    (tObj : Option Obj) (srcObj : Obj) : Bool × EngState :=
  let sm := srcObj.meta
  match resolveAnn sm (kFrom c.pfx) with
  | some source =>
    let proceed : Option Bool :=
      match tObj with
      | some t => needsFromAnnUpd c.pfx t.meta sm
      | none => some true
    match proceed with
    | none => (true, s)
    | some false => (false, s)
    | some true =>
      let anns : AnnMap := [(kBy c.pfx, keyOf sm), (kFrom c.pfx, source)]
      let anns :=
        match getA sm.annotations (kOnce c.pfx) with
        | some v => anns ++ [(kOnce c.pfx, v)]
        | none => anns
      let rv :=
        match tObj with
        | some t => t.meta.resourceVersion
        | none => ""
      (false, doInstallObject c s ⟨tns, tname, rv, anns, copyLabels⟩ srcObj tObj)
  | none =>
    match tObj with
    | none => installObject3 c s tns tname none srcObj
    | some t =>
      if (getA t.meta.annotations (kFrom c.pfx)).isSome then
        installObject3 c s tns tname (some t) srcObj
      else
        match needsDataUpdate c.pfx t.meta sm with
        | (true, _) => installObject3 c s tns tname (some t) srcObj
        | (false, once) =>
          let go : Option Bool :=
            if !once then some false
            else needsAllowedAnnUpd c.oracle c.pfx t.meta sm
          match go with
          | some true =>
            let anns := t.meta.annotations
            let anns :=
              match getA sm.annotations (kAllowed c.pfx) with
              | some v => setA anns (kAllowed c.pfx) v
              | none => delA anns (kAllowed c.pfx)
            let anns :=
              match getA sm.annotations (kAllowedNs c.pfx) with
              | some v => setA anns (kAllowedNs c.pfx) v
              | none => delA anns (kAllowedNs c.pfx)
            (false,
             doInstallObject c s
               { t.meta with labels := copyLabels, annotations := anns } srcObj (some t))
          | _ => (true, s)

/-- `installObject` (push): either a target key or the current target object
is supplied; an existing target not created by this source is refused. -/
def installObject (c : Ctx) (s : EngState) (target : String)
    (targetObject : Option Obj) (srcObj : Obj) : Bool × EngState :=
  match targetObject with
  | some tobj => installObject2 c s tobj.meta.ns tobj.meta.name (some tobj) srcObj
  | none =>
    match splitN2 target with
    | [tns, tname] =>
      match fetch c.pfx s target false with
      | (.errF, s1) => (true, s1)
      | (.absent, s1) => installObject2 c s1 tns tname none srcObj
      | (.found tobj, s1) =>
        if isReplicatedBy c.pfx tobj.meta srcObj.meta then
          installObject2 c s1 tns tname (some tobj) srcObj
        else (true, s1)
    | _ => (true, s)

/-- `clearObject`: re-verify the dependent still points at the source, then
clear it; the boolean tells the caller whether to keep the dependent. -/
def clearObject (c : Ctx) (s : EngState) (key : String) (srcObj : Obj) :
    Bool × EngState :=
  match fetch c.pfx s key true with
  | (.found tobj, s1) =>
    if annRefersTo tobj.meta (kFrom c.pfx) srcObj.meta then
      (true, doClearObject c s1 tobj)
    else (false, s1)
  | (_, s1) => (false, s1)

/-- `deleteObject`: re-verify the target carries `replicated-by` naming the
source, then delete it. -/
def deleteObject (c : Ctx) (s : EngState) (key : String) (srcObj : Obj) : EngState :=
  match fetch c.pfx s key true with
  | (.found tobj, s1) =>
    if isReplicatedBy c.pfx tobj.meta srcObj.meta then doDeleteObject s1 tobj
    else s1
  | (_, s1) => s1

/-! ### `ObjectAdded` -/

/-- Deprecation step of `ObjectAdded`: rewrite the annotations, write the
object back when the rewrite changed them, and re-read; `none` means the
handler returns (poison object). -/
def oaDeprecation (c : Ctx) (s : EngState) (obj : Obj) : EngState × Option Obj :=
  match updDepAnn c.pfx obj.meta.annotations with
  | (.errU, _) => (s, none)
  | (.okU false, anns2) =>
    (s, some { obj with meta := { obj.meta with annotations := anns2 } })
  | (.okU true, anns2) =>
    let obj1 : Obj := { obj with meta := { obj.meta with annotations := anns2 } }
    let (obj2, s1) := actUpdate s obj1 obj1 (delA anns2 checkedKey)
    let s2 := { s1 with objects := storePut s1.objects obj2 }
    match updDepAnn c.pfx obj2.meta.annotations with
    | (.errU, _) => (s2, none)
    | (.okU _, anns3) =>
      (s2, some { obj2 with meta := { obj2.meta with annotations := anns3 } })

/-- Stale-target loop of `ObjectAdded`: delete every previously installed
target no longer named by a literal or pattern (sorted, duplicates skipped
through `previous`). -/
def oaStaleLoop (c : Ctx) (obj : Obj) (targets : List String)
    (pats : List TargetPattern) : List String → String → EngState → EngState
  | [], _, s => s
  | t :: rest, prev, s =>
    if t == prev then oaStaleLoop c obj targets pats rest prev s
    else if targets.contains t || pats.any (fun tp => tpMatchString tp t) then
      oaStaleLoop c obj targets pats rest t s
    else
      oaStaleLoop c obj targets pats rest t (deleteObject c s t obj)

/-- Dependents loop of `ObjectAdded`: re-replicate every dependent that
still declares this source, dropping stale ones. -/
def oaDependentsLoop (c : Ctx) (key : String) (obj : Obj) :
    List String → String → List String → EngState → List String × EngState
  | [], _, kept, s => (kept, s)
  | d :: rest, prev, kept, s =>
    if d == prev then oaDependentsLoop c key obj rest prev kept s
    else
      match fetch c.pfx s d true with
      | (.found tobj, s1) =>
        if resolveAnn tobj.meta (kFrom c.pfx) == some key then
          oaDependentsLoop c key obj rest d (kept ++ [d])
            (replicateObject c s1 tobj obj)
        else oaDependentsLoop c key obj rest d kept s1
      | (_, s1) => oaDependentsLoop c key obj rest d kept s1

/-- Pattern-expansion step of the push branch: add the pattern targets not
yet seen. -/
def oaPatAdd : List String → List String → List String → List String × List String
  | [], seen, ex => (seen, ex)
  | t :: rest, seen, ex =>
    if seen.contains t then oaPatAdd rest seen ex
    else oaPatAdd rest (seen ++ [t]) (ex ++ [t])

/-- Expansion of all patterns over the known namespaces. -/
def oaPatExpand (nss : List String) :
    List TargetPattern → List String → List String → List String × List String
  | [], seen, ex => (seen, ex)
  | p :: rest, seen, ex =>
    let (seen1, ex1) := oaPatAdd (tpTargets p nss) seen ex
    oaPatExpand nss rest seen1 ex1

/-- Installation loop of the push branch. -/
def oaInstallLoop (c : Ctx) (obj : Obj) : List String → EngState → EngState
  | [], s => s
  | t :: rest, s => oaInstallLoop c obj rest (installObject c s t none obj).2

/-- Push branch of `ObjectAdded` (`targets != nil || targetPatterns != nil`):
record the watch indexes and install every target whose namespace exists. -/
def oaPush (c : Ctx) (s : EngState) (key : String) (obj : Obj)
    (targets : List String) (pats : List TargetPattern) : EngState :=
  let nss := s.namespaces
  let exist0 := targets.filter (fun t => nss.contains (headNs t))
  let exist1 :=
    if pats.length > 0 then (oaPatExpand nss pats (key :: exist0) exist0).2
    else exist0
  let s := if targets.length > 0 then
    { s with watchedTargets := setI s.watchedTargets key targets } else s
  let s := if pats.length > 0 then
    { s with watchedPatterns := setI s.watchedPatterns key pats } else s
  if exist1.length > 0 then
    oaInstallLoop c obj exist1 { s with targetsTo := setI s.targetsTo key exist1 }
  else s

/-- Pull branch of `ObjectAdded` (`replicate-from`): register the dependency
and replicate from the source, or clear when the source is gone. -/
def oaFrom (c : Ctx) (s : EngState) (key : String) (obj : Obj) : EngState :=
  match resolveAnn obj.meta (kFrom c.pfx) with
  | none => s
  | some val =>
    let cur := (getI s.targetsFrom val).getD []
    let s1 := { s with targetsFrom := setI s.targetsFrom val (cur ++ [key]) }
    match fetch c.pfx s1 val false with
    | (.errF, s2) => s2
    | (.absent, s2) => doClearObject c s2 obj
    | (.found srcObj, s2) => replicateObject c s2 obj srcObj

/-- `replicated-by` branch of `ObjectAdded`: delete the orphaned target, or
re-install it from its source and continue with the re-read object. -/
def oaCreatedBy (c : Ctx) (s : EngState) (key : String) (obj : Obj) (val : String) :
    EngState × Option Obj :=
  match fetch c.pfx s val false with
  | (.errF, s1) => (s1, none)
  | (.absent, s1) => (doDeleteObject s1 obj, none)
  | (.found srcObj, s1) =>
    match
      isReplicatedTo c.oracle c.pfx
        ((getI s1.watchedPatterns (keyOf srcObj.meta)).getD []) srcObj.meta obj.meta with
    | none => (s1, none)
    | some false => (doDeleteObject s1 obj, none)
    | some true =>
      match installObject c s1 "" (some obj) srcObj with
      | (true, s2) => (s2, none)
      | (false, s2) =>
        match fetch c.pfx s2 key true with
        | (.found obj2, s3) => (s3, some obj2)
        | (_, s3) => (s3, none)

/-- Stale-target stage of `ObjectAdded` (`targetsTo[key]` cleanup). -/
def oaStage2 (c : Ctx) (key : String) (obj : Obj) (targetsL : List String)
    (patsL : List TargetPattern) (s1 : EngState) : EngState :=
  match getI s1.targetsTo key with
  | some oldTargets =>
    let s' := oaStaleLoop c obj targetsL patsL
      (oldTargets.mergeSort (fun a b => decide (a ≤ b))) "" s1
    { s' with targetsTo := eraseI s'.targetsTo key }
  | none => s1

/-- Dependents stage of `ObjectAdded` (`targetsFrom[key]` reconciliation). -/
def oaStage3 (c : Ctx) (key : String) (obj : Obj) (s2 : EngState) : EngState :=
  match getI s2.targetsFrom key with
  | some replicas =>
    if replicas.length > 0 then
      let (kept, s') := oaDependentsLoop c key obj
        (replicas.mergeSort (fun a b => decide (a ≤ b))) "" [] s2
      if kept.length > 0 then
        { s' with targetsFrom := setI s'.targetsFrom key kept }
      else { s' with targetsFrom := eraseI s'.targetsFrom key }
    else s2
  | none => s2

/-- Final dispatch stage of `ObjectAdded`: `replicated-by`, push or pull. -/
def oaStage4 (c : Ctx) (key : String) (obj : Obj)
    (tPair : Option (List String × List TargetPattern)) (s3 : EngState) : EngState :=
  match getA obj.meta.annotations (kBy c.pfx) with
  | some val =>
    match oaCreatedBy c s3 key obj val with
    | (s4, none) => s4
    | (s4, some obj2) => oaFrom c s4 key obj2
  | none =>
    match tPair with
    | some (targets, pats) => oaPush c s3 key obj targets pats
    | none => oaFrom c s3 key obj

/-- `ObjectAdded` from `part_005`. -/
def handleObjectAdded (c : Ctx) (s0 : EngState) (obj0 : Obj) : EngState :=
  let key := keyOf obj0.meta
  let s := dropWatched s0 key
  match oaDeprecation c s obj0 with
  | (s1, none) => s1
  | (s1, some obj) =>
    match getReplicationTargets c.oracle c.pfx
        ((getI s1.watchedPatterns key).getD []) obj.meta with
    | .errG => s1
    | grt =>
      let tPair : Option (List String × List TargetPattern) :=
        match grt with
        | .ok t q => some (t, q)
        | _ => none
      let targetsL := (tPair.map Prod.fst).getD []
      let patsL := (tPair.map Prod.snd).getD []
      oaStage4 c key obj tPair
        (oaStage3 c key obj (oaStage2 c key obj targetsL patsL s1))

/-! ### `ObjectDeleted` -/

/-- Dependent-clearing loop of `ObjectDeleted`. -/
def odClearLoop (c : Ctx) (obj : Obj) :
    List String → String → List String → EngState → List String × EngState
  | [], _, kept, s => (kept, s)
  | d :: rest, prev, kept, s =>
    if d == prev then odClearLoop c obj rest prev kept s
    else
      match clearObject c s d obj with
      | (true, s1) => odClearLoop c obj rest d (kept ++ [d]) s1
      | (false, s1) => odClearLoop c obj rest d kept s1

/-- Replacement loop of `ObjectDeleted`: install from the first source that
still wants to replicate at the freed location. -/
def odInstallLoop (c : Ctx) (key : String) (m : ObjMeta) :
    List String → EngState → EngState
  | [], s => s
  | src :: rest, s =>
    match fetch c.pfx s src true with
    | (.found srcObj, s1) =>
      match
        isReplicatedTo c.oracle c.pfx
          ((getI s1.watchedPatterns (keyOf srcObj.meta)).getD []) srcObj.meta m with
      | none => odInstallLoop c key m rest (dropWatched s1 src)
      | some true => (installObject c s1 key none srcObj).2
      | some false => odInstallLoop c key m rest s1
    | (_, s1) => odInstallLoop c key m rest s1

/-- Own-target deletion stage of `ObjectDeleted`. -/
def odStage1 (c : Ctx) (obj : Obj) (key : String) (s0 : EngState) : EngState :=
  match getI s0.targetsTo key with
  | some ts => ts.foldl (fun s t => deleteObject c s t obj) s0
  | none => s0

/-- Dependent-clearing stage of `ObjectDeleted`. -/
def odStage3 (c : Ctx) (obj : Obj) (key : String) (s2 : EngState) : EngState :=
  match getI s2.targetsFrom key with
  | some replicas =>
    let (kept, s') := odClearLoop c obj
      (replicas.mergeSort (fun a b => decide (a ≤ b))) "" [] s2
    if kept.length > 0 then { s' with targetsFrom := setI s'.targetsFrom key kept }
    else { s' with targetsFrom := eraseI s'.targetsFrom key }
  | none => s2

/-- Replacement stage of `ObjectDeleted`. -/
def odStage4 (c : Ctx) (obj : Obj) (key : String) (s3 : EngState) : EngState :=
  if !(s3.namespaces.contains obj.meta.ns) then s3
  else
    let todo1 := (s3.watchedTargets.filter (fun q => q.2.contains key)).map Prod.fst
    let todo2 :=
      (s3.watchedPatterns.filter
        (fun q => q.2.any (fun tp => tpMatch tp obj.meta))).map Prod.fst
    odInstallLoop c key obj.meta ((todo1 ++ todo2).dedup) s3

/-- `ObjectDeleted` from `part_005`. -/
def handleObjectDeleted (c : Ctx) (s0 : EngState) (obj : Obj) : EngState :=
  let key := keyOf obj.meta
  let s1 := odStage1 c obj key s0
  let s2 := { s1 with targetsTo := eraseI s1.targetsTo key,
                      watchedTargets := eraseI s1.watchedTargets key,
                      watchedPatterns := eraseI s1.watchedPatterns key }
  odStage4 c obj key (odStage3 c obj key s2)

/-! ### `NamespaceAdded` -/

/-- `replicateToNamespace`: install the subset of a source's targets landing
in the new namespace. -/
def replicateToNamespace (c : Ctx) (s : EngState) (obj : Obj) (nsName : String) :
    EngState :=
  let key := keyOf obj.meta
  if (getA obj.meta.annotations (kBy c.pfx)).isSome then dropWatched s key
  else
    match getReplicationTargets c.oracle c.pfx
        ((getI s.watchedPatterns key).getD []) obj.meta with
    | .errG => dropWatched s key
    | grt =>
      let (targets, pats) :=
        match grt with
        | .ok t q => (t, q)
        | _ => ([], [])
      let l1 := (targets.filter (fun t => headNs t == nsName)).foldl
        (fun acc t => addIfNew t acc) []
      let l2 := pats.foldl
        (fun acc tp =>
          let t := tpMatchNamespace tp nsName
          if t != "" then addIfNew t acc else acc) l1
      let existL := l2.filter (fun t => t != key)
      if existL.isEmpty then s
      else
        let cur := (getI s.targetsTo key).getD []
        let s1 := oaInstallLoop c obj existL s
        { s1 with targetsTo := setI s1.targetsTo key (cur ++ existL) }

/-- Source loop of `NamespaceAdded`. -/
def naLoop (c : Ctx) (nsName : String) : List String → EngState → EngState
  | [], s => s
  | src :: rest, s =>
    match fetch c.pfx s src true with
    | (.found srcObj, s1) => naLoop c nsName rest (replicateToNamespace c s1 srcObj nsName)
    | (_, s1) => naLoop c nsName rest s1

/-- `NamespaceAdded` from `part_005`. -/
def handleNamespaceAdded (c : Ctx) (s : EngState) (nsName : String) : EngState :=
  let todo1 :=
    (s.watchedTargets.filter (fun q => q.2.any (fun t => headNs t == nsName))).map Prod.fst
  let todo2 :=
    (s.watchedPatterns.filter
      (fun q => q.2.any (fun tp => tpMatchNamespace tp nsName != ""))).map Prod.fst
  naLoop c nsName ((todo1 ++ todo2).dedup) s

/-! ### Shared helper lemmas -/

theorem strExt {s t : String} (h : s.data = t.data) : s = t := by
  cases s; cases t; exact congrArg String.mk h

theorem appendCancel {p a b : String} (h : p ++ a = p ++ b) : a = b := by
  apply strExt
  have h2 := congrArg String.data h
  rw [String.data_append, String.data_append] at h2
  exact List.append_cancel_left h2

theorem appendNeShort {p a c : String} (h : c.length < a.length) : p ++ a ≠ c := by
  intro he
  have h2 : (p ++ a).length = c.length := congrArg String.length he
  rw [String.length_append] at h2
  omega

theorem getA_cons (a : String × String) (t : AnnMap) (k : String) :
    getA (a :: t) k = if a.1 = k then some a.2 else getA t k := by
  by_cases h : a.1 = k <;> simp [getA, List.find?_cons, h]

theorem delA_cons (a : String × String) (t : AnnMap) (k : String) :
    delA (a :: t) k = if a.1 = k then delA t k else a :: delA t k := by
  by_cases h : a.1 = k <;> simp [delA, List.filter_cons, h]

theorem getA_append (m1 m2 : AnnMap) (k : String) :
    getA (m1 ++ m2) k = ((getA m1 k).orElse (fun _ => getA m2 k)) := by
  induction m1 with
  | nil => simp [getA]
  | cons a t ih =>
    rw [List.cons_append, getA_cons, getA_cons]
    by_cases h : a.1 = k <;> simp [h, ih]

theorem getA_delA_self (m : AnnMap) (k : String) : getA (delA m k) k = none := by
  induction m with
  | nil => rfl
  | cons a t ih =>
    rw [delA_cons]
    by_cases h : a.1 = k
    · simpa [h] using ih
    · rw [if_neg h, getA_cons, if_neg h]
      exact ih

theorem getA_delA_ne (m : AnnMap) (k k' : String) (h : k' ≠ k) :
    getA (delA m k) k' = getA m k' := by
  induction m with
  | nil => rfl
  | cons a t ih =>
    rw [delA_cons, getA_cons]
    by_cases h1 : a.1 = k
    · rw [if_pos h1, ih, if_neg]
      rw [h1]
      exact fun he => h he.symm
    · rw [if_neg h1, getA_cons]
      by_cases h2 : a.1 = k' <;> simp [h2, ih]

theorem getA_setA_self (m : AnnMap) (k v : String) : getA (setA m k v) k = some v := by
  have : setA m k v = delA m k ++ [(k, v)] := rfl
  rw [this, getA_append, getA_delA_self]
  simp [getA, List.find?_cons]

theorem getA_setA_ne (m : AnnMap) (k v : String) (k' : String) (h : k' ≠ k) :
    getA (setA m k v) k' = getA m k' := by
  have hs : setA m k v = delA m k ++ [(k, v)] := rfl
  rw [hs, getA_append, getA_delA_ne m k k' h]
  cases hg : getA m k' with
  | some w => rfl
  | none =>
    simp only [Option.orElse, Option.none_orElse]
    rw [getA_cons]
    rw [if_neg (fun he => h he.symm)]
    rfl

/-! ### Claims C2 and C3: the pull permission check -/

theorem ann3_of_from {p : String} {src : ObjMeta} {v : String}
    (h : getA src.annotations (kFrom p) = some v) :
    isRepAllowedAnn3 p src = .errP := by
  unfold isRepAllowedAnn3 resolveAnn
  rw [h]
  by_cases hs : hasSlash v <;> simp [hs]

theorem ann2_of_from {oracle : String → Option (String → Bool)} {p : String}
    {obj src : ObjMeta} {annNs : Option String} {v : String}
    (h : getA src.annotations (kFrom p) = some v) :
    isRepAllowedAnn2 oracle p obj src annNs ≠ .allowed := by
  unfold isRepAllowedAnn2
  cases annNs with
  | none => simp [ann3_of_from h]
  | some nsv =>
    dsimp only
    cases allowedNsLoop oracle obj.ns (splitComma nsv) false with
    | none => simp
    | some b => cases b <;> simp [ann3_of_from h]

/-- C2.  Pull permission gating: with allow-all mode off and a source that
carries neither `replication-allowed` nor `replication-allowed-namespaces`,
`isReplicationAllowedAnnotation` returns the explicit-disallow outcome; and
whenever `replication-allowed` parses as the boolean false, it returns the
explicit-disallow outcome regardless of the allow-all flag. -/
theorem claim2_pull_permission_gating
    (oracle : String → Option (String → Bool)) (p : String) (obj src : ObjMeta) :
    (getA src.annotations (kAllowed p) = none →
      getA src.annotations (kAllowedNs p) = none →
      isRepAllowedAnn false oracle p obj src = .disallowed) ∧
    (∀ (allowAll : Bool) (v : String),
      getA src.annotations (kAllowed p) = some v → parseBool v = some false →
      isRepAllowedAnn allowAll oracle p obj src = .disallowed) := by
  constructor
  · intro h1 h2
    simp [isRepAllowedAnn, h1, h2]
  · intro allowAll v h1 h2
    simp [isRepAllowedAnn, h1, h2]

/-- Witness for C2 at concrete metadata. -/
theorem claim2_witness :
    isRepAllowedAnn false (fun _ => none) defaultPfx
      ⟨"t-ns", "t", "1", [], []⟩ ⟨"s-ns", "s", "2", [], []⟩ = .disallowed ∧
    isRepAllowedAnn true (fun _ => none) defaultPfx
      ⟨"t-ns", "t", "1", [], []⟩
      ⟨"s-ns", "s", "2", [(kAllowed defaultPfx, "false")], []⟩ = .disallowed :=
  ⟨(claim2_pull_permission_gating (fun _ => none) defaultPfx
      ⟨"t-ns", "t", "1", [], []⟩ ⟨"s-ns", "s", "2", [], []⟩).1 rfl rfl,
   (claim2_pull_permission_gating (fun _ => none) defaultPfx
      ⟨"t-ns", "t", "1", [], []⟩
      ⟨"s-ns", "s", "2", [(kAllowed defaultPfx, "false")], []⟩).2 true "false"
      (by decide) (by decide)⟩

/-- C3.  Chain blockage: a source that carries `replicate-from` never
obtains the allowed outcome from the permission check, for any allow-all
flag, any regex oracle and any other annotations. -/
theorem claim3_chain_blockage
    (allowAll : Bool) (oracle : String → Option (String → Bool)) (p : String)
    (obj src : ObjMeta) (v : String)
    (h : getA src.annotations (kFrom p) = some v) :
    isRepAllowedAnn allowAll oracle p obj src ≠ .allowed := by
  simp only [isRepAllowedAnn]
  split
  · simp
  · split
    · split
      · simp
      · simp
      · exact ann2_of_from h
    · exact ann2_of_from h

/-- Witness for C3 at concrete metadata. -/
theorem claim3_witness :
    isRepAllowedAnn true (fun _ => none) defaultPfx
      ⟨"t-ns", "t", "1", [], []⟩
      ⟨"s-ns", "s", "2",
        [(kAllowed defaultPfx, "true"), (kFrom defaultPfx, "x/y")], []⟩ ≠ .allowed :=
  claim3_chain_blockage true (fun _ => none) defaultPfx
    ⟨"t-ns", "t", "1", [], []⟩
    ⟨"s-ns", "s", "2",
      [(kAllowed defaultPfx, "true"), (kFrom defaultPfx, "x/y")], []⟩ "x/y" (by decide)

/-! ### Claims C4 and C8: `needsDataUpdate` -/

/-- The parsed `replicate-once` flag of an object: `some false` when the
annotation is absent, the parse result when present (`none` = malformed). -/
def parsedOnce (p : String) (m : ObjMeta) : Option Bool :=
  match getA m.annotations (kOnce p) with
  | none => some false
  | some x => parseBool x

theorem kOnce_ne_kOnceVer (p : String) : kOnce p ≠ kOnceVer p := by
  intro h
  have := appendCancel h
  exact absurd this (by decide)

theorem ndu_to_chain {p : String} {obj src : ObjMeta} {v : String} {bs bt : Bool}
    (hv : getA obj.annotations (kVer p) = some v) (hne : v ≠ src.resourceVersion)
    (hbs : parsedOnce p src = some bs) (hbt : parsedOnce p obj = some bt) :
    needsDataUpdate p obj src = nduOnceChain p obj src (bs || bt) := by
  unfold needsDataUpdate
  rw [hv]
  dsimp only
  have hne2 : (v == src.resourceVersion) = false := by
    simp only [beq_eq_false_iff_ne, ne_eq]
    exact hne
  rw [hne2]
  simp only [Bool.false_eq_true, if_false]
  unfold parsedOnce at hbs hbt
  unfold nduTargetOnce
  cases hso : getA src.annotations (kOnce p) with
  | none =>
    rw [hso] at hbs
    dsimp only at hbs
    have hb : bs = false := (Option.some.inj hbs).symm
    subst hb
    dsimp only
    cases hto : getA obj.annotations (kOnce p) with
    | none =>
      rw [hto] at hbt
      dsimp only at hbt
      have hb2 : bt = false := (Option.some.inj hbt).symm
      subst hb2
      rfl
    | some y =>
      rw [hto] at hbt
      dsimp only at hbt
      dsimp only
      rw [hbt]
  | some x =>
    rw [hso] at hbs
    dsimp only at hbs
    dsimp only
    rw [hbs]
    dsimp only
    cases hto : getA obj.annotations (kOnce p) with
    | none =>
      rw [hto] at hbt
      dsimp only at hbt
      have hb2 : bt = false := (Option.some.inj hbt).symm
      subst hb2
      rw [Bool.or_false]
    | some y =>
      rw [hto] at hbt
      dsimp only at hbt
      dsimp only
      rw [hbt]

theorem nduChain_needed_gt {p : String} {obj src : ObjMeta} {a b : SemVer}
    {sa ta : String}
    (hsa : getA src.annotations (kOnceVer p) = some sa) (hpa : parseSemVer sa = some a)
    (hta : getA obj.annotations (kOnceVer p) = some ta) (hpb : parseSemVer ta = some b) :
    (nduOnceChain p obj src true).1 = true → svGT a b = true := by
  unfold nduOnceChain
  simp only [Bool.not_true, Bool.false_eq_true, if_false, hsa, hpa]
  by_cases hz : svEq a semverZero = true
  · simp [hz]
  · simp only [hz, Bool.false_eq_true, if_false, hta, hpb]
    by_cases hg : svGT a b = true
    · simp [hg]
    · simp [hg]

theorem nduChain_noSrcVer {p : String} {obj src : ObjMeta}
    (h : getA src.annotations (kOnceVer p) = none) :
    nduOnceChain p obj src true = (false, true) := by
  unfold nduOnceChain
  simp [h]

/-- C4.  Once semantics of `needsDataUpdate`, reading the clauses in the
sequential order of the spec and of the code: an update is needed whenever
the target lacks `replicated-version`; it is not needed when the recorded
version equals the source's current `resourceVersion`; past those two rules,
with `replicate-once` asserted by either side (both flags parsing) and valid
`replicate-once-version` semantic versions on both sides, an update is
needed only if the source version is strictly greater; and with once
asserted but no source `replicate-once-version`, the result is
blocked-by-once. -/
theorem claim4_once_semantics (p : String) (obj src : ObjMeta) :
    (getA obj.annotations (kVer p) = none → needsDataUpdate p obj src = (true, false)) ∧
    (∀ v, getA obj.annotations (kVer p) = some v → v = src.resourceVersion →
      needsDataUpdate p obj src = (false, false)) ∧
    (∀ v bs bt sa ta a b,
      getA obj.annotations (kVer p) = some v → v ≠ src.resourceVersion →
      parsedOnce p src = some bs → parsedOnce p obj = some bt → (bs || bt) = true →
      getA src.annotations (kOnceVer p) = some sa → parseSemVer sa = some a →
      getA obj.annotations (kOnceVer p) = some ta → parseSemVer ta = some b →
      (needsDataUpdate p obj src).1 = true → svGT a b = true) ∧
    (∀ v bs bt,
      getA obj.annotations (kVer p) = some v → v ≠ src.resourceVersion →
      parsedOnce p src = some bs → parsedOnce p obj = some bt → (bs || bt) = true →
      getA src.annotations (kOnceVer p) = none →
      needsDataUpdate p obj src = (false, true)) := by
  refine ⟨?_, ?_, ?_, ?_⟩
  · intro h
    simp [needsDataUpdate, h]
  · intro v h1 h2
    subst h2
    simp [needsDataUpdate, h1]
  · intro v bs bt sa ta a b hv hne hbs hbt hor hsa hpa hta hpb
    rw [ndu_to_chain hv hne hbs hbt, hor]
    exact nduChain_needed_gt hsa hpa hta hpb
  · intro v bs bt hv hne hbs hbt hor hs
    rw [ndu_to_chain hv hne hbs hbt, hor]
    exact nduChain_noSrcVer hs

/-- Witness for C4 at concrete metadata: a once-asserted source without a
once-version blocks an already-replicated target, and with versions `2.0`
over `1.0` an update is needed only because the source version is greater. -/
theorem claim4_witness :
    needsDataUpdate defaultPfx
      ⟨"t-ns", "t", "7", [(kVer defaultPfx, "3")], []⟩
      ⟨"s-ns", "s", "5", [(kOnce defaultPfx, "true")], []⟩ = (false, true) ∧
    svGT ⟨2, 0, 0, []⟩ ⟨1, 0, 0, []⟩ = true :=
  ⟨(claim4_once_semantics defaultPfx
      ⟨"t-ns", "t", "7", [(kVer defaultPfx, "3")], []⟩
      ⟨"s-ns", "s", "5", [(kOnce defaultPfx, "true")], []⟩).2.2.2 "3" true false
      (by decide) (by decide) (by decide) (by decide) (by decide) (by decide),
   (claim4_once_semantics defaultPfx
      ⟨"t-ns", "t", "7", [(kVer defaultPfx, "3"), (kOnceVer defaultPfx, "1.0")], []⟩
      ⟨"s-ns", "s", "5", [(kOnce defaultPfx, "true"), (kOnceVer defaultPfx, "2.0")], []⟩).2.2.1
      "3" true false "2.0" "1.0" ⟨2, 0, 0, []⟩ ⟨1, 0, 0, []⟩
      (by decide) (by decide) (by decide) (by decide) (by decide) (by decide) (by decide)
      (by decide) (by decide) (by decide)⟩

theorem nduChain_delOnceVer {p : String} {obj src : ObjMeta} {v : String} {sv : SemVer}
    (hv : getA src.annotations (kOnceVer p) = some v)
    (hp : parseSemVer v = some sv) (hz : svEq sv semverZero = true) (h : Bool) :
    nduOnceChain p obj src h =
      nduOnceChain p obj { src with annotations := delA src.annotations (kOnceVer p) } h := by
  cases h with
  | false => rfl
  | true =>
    unfold nduOnceChain
    simp only [Bool.not_true, Bool.false_eq_true, if_false, hv, hp, hz, if_true,
      getA_delA_self]

/-- C8.  Zero once-version: `0`, `0.0` and `0.0.0` all parse to the zero
version, and when the source's `replicate-once-version` parses to a version
equal to zero, `needsDataUpdate` behaves exactly as if the source carried no
`replicate-once-version` annotation at all. -/
theorem claim8_zero_once_version :
    (parseSemVer "0" = some semverZero ∧ parseSemVer "0.0" = some semverZero ∧
     parseSemVer "0.0.0" = some semverZero) ∧
    (∀ (p : String) (obj src : ObjMeta) (v : String) (sv : SemVer),
      getA src.annotations (kOnceVer p) = some v → parseSemVer v = some sv →
      svEq sv semverZero = true →
      needsDataUpdate p obj src =
        needsDataUpdate p obj { src with annotations := delA src.annotations (kOnceVer p) }) := by
  refine ⟨⟨by decide, by decide, by decide⟩, ?_⟩
  intro p obj src v sv hv hp hz
  unfold needsDataUpdate
  cases getA obj.annotations (kVer p) with
  | none => rfl
  | some tv =>
    dsimp only
    by_cases he : (tv == src.resourceVersion) = true
    · rw [he]
      rfl
    · rw [Bool.not_eq_true] at he
      rw [he]
      simp only [Bool.false_eq_true, if_false]
      rw [getA_delA_ne src.annotations (kOnceVer p) (kOnce p) (kOnce_ne_kOnceVer p)]
      cases getA src.annotations (kOnce p) with
      | none =>
        unfold nduTargetOnce
        cases getA obj.annotations (kOnce p) with
        | none => exact nduChain_delOnceVer hv hp hz false
        | some y =>
          dsimp only
          cases parseBool y with
          | none => rfl
          | some b => exact nduChain_delOnceVer hv hp hz b
      | some x =>
        dsimp only
        cases parseBool x with
        | none => rfl
        | some b =>
          unfold nduTargetOnce
          cases getA obj.annotations (kOnce p) with
          | none => exact nduChain_delOnceVer hv hp hz b
          | some y =>
            dsimp only
            cases parseBool y with
            | none => rfl
            | some b2 => exact nduChain_delOnceVer hv hp hz (b || b2)

/-- Witness for C8 at concrete metadata. -/
theorem claim8_witness :
    needsDataUpdate defaultPfx
      ⟨"t-ns", "t", "7", [(kVer defaultPfx, "3")], []⟩
      ⟨"s-ns", "s", "5", [(kOnce defaultPfx, "true"), (kOnceVer defaultPfx, "0.0")], []⟩ =
    needsDataUpdate defaultPfx
      ⟨"t-ns", "t", "7", [(kVer defaultPfx, "3")], []⟩
      { (⟨"s-ns", "s", "5", [(kOnce defaultPfx, "true"), (kOnceVer defaultPfx, "0.0")], []⟩ : ObjMeta) with
        annotations :=
          delA [(kOnce defaultPfx, "true"), (kOnceVer defaultPfx, "0.0")] (kOnceVer defaultPfx) } :=
  claim8_zero_once_version.2 defaultPfx
    ⟨"t-ns", "t", "7", [(kVer defaultPfx, "3")], []⟩
    ⟨"s-ns", "s", "5", [(kOnce defaultPfx, "true"), (kOnceVer defaultPfx, "0.0")], []⟩
    "0.0" semverZero (by decide) (by decide) (by decide)

/-! ### Claims C9 and C10: `updateDeprecatedAnnotations` -/

theorem getA_depMap_self (p : String) : getA (depMap p) (kOldVer p) = some (kVer p) := by
  unfold depMap
  rw [getA_cons]
  simp

theorem getA_depMap_eq {p k new' : String} (h : getA (depMap p) k = some new') :
    k = kOldVer p ∧ new' = kVer p := by
  unfold depMap at h
  rw [getA_cons] at h
  by_cases he : kOldVer p = k
  · rw [if_pos he] at h
    exact ⟨he.symm, (Option.some.inj h).symm⟩
  · rw [if_neg he] at h
    simp [getA] at h

theorem mem_keysA_of_getA {m : AnnMap} {k v : String} (h : getA m k = some v) :
    k ∈ keysA m := by
  unfold getA at h
  cases hf : m.find? (fun q => q.1 == k) with
  | none => rw [hf] at h; cases h
  | some q =>
    have hq1 : q ∈ m := List.mem_of_find?_eq_some hf
    have hq2 := List.find?_some hf
    have hq3 : q.1 = k := by simpa using hq2
    unfold keysA
    exact List.mem_dedup.mpr (hq3 ▸ List.mem_map_of_mem Prod.fst hq1)

theorem getA_isSome_of_mem {m : AnnMap} {k : String} (h : k ∈ keysA m) :
    (getA m k).isSome := by
  unfold keysA at h
  obtain ⟨q, hq, hq2⟩ := List.mem_map.mp (List.mem_dedup.mp h)
  unfold getA
  have hfs : (m.find? (fun q => q.1 == k)).isSome = true :=
    List.find?_isSome.mpr ⟨q, hq, by simp [hq2]⟩
  obtain ⟨r, hr⟩ := Option.isSome_iff_exists.mp hfs
  rw [hr]
  rfl

theorem kOldVer_ne_checked (p : String) : kOldVer p ≠ checkedKey :=
  appendNeShort (by decide)

theorem kVer_ne_checked (p : String) : kVer p ≠ checkedKey :=
  appendNeShort (by decide)

theorem kVer_ne_kOldVer (p : String) : kVer p ≠ kOldVer p := by
  intro h
  exact absurd (appendCancel h) (by decide)

theorem depKeys_all {p : String} {anns : AnnMap} :
    ∀ x ∈ depKeysOf p anns, x = kOldVer p := by
  intro x hx
  unfold depKeysOf at hx
  have h2 := (List.mem_filter.mp hx).2
  obtain ⟨w, hw⟩ := Option.isSome_iff_exists.mp h2
  exact (getA_depMap_eq hw).1

theorem depKeys_nodup (p : String) (anns : AnnMap) : (depKeysOf p anns).Nodup := by
  unfold depKeysOf keysA
  exact (List.nodup_dedup _).filter _

theorem depKeys_cases (p : String) (anns : AnnMap) :
    depKeysOf p anns = [] ∨ depKeysOf p anns = [kOldVer p] := by
  cases hd : depKeysOf p anns with
  | nil => exact Or.inl rfl
  | cons a t =>
    right
    have hall := @depKeys_all p anns
    rw [hd] at hall
    have hnd := depKeys_nodup p anns
    rw [hd] at hnd
    have ha : a = kOldVer p := hall a (List.mem_cons_self a t)
    cases t with
    | nil => rw [ha]
    | cons b t2 =>
      exfalso
      have hb : b = kOldVer p := hall b (by simp)
      exact (List.nodup_cons.mp hnd).1 (by simp [ha, hb])

theorem depKeys_nil_getA {p : String} {anns : AnnMap} (h : depKeysOf p anns = []) :
    getA anns (kOldVer p) = none := by
  cases hg : getA anns (kOldVer p) with
  | none => rfl
  | some w =>
    exfalso
    have hmem := mem_keysA_of_getA hg
    have : kOldVer p ∈ depKeysOf p anns := by
      unfold depKeysOf
      refine List.mem_filter.mpr ⟨hmem, ?_⟩
      rw [getA_depMap_self]
      rfl
    rw [h] at this
    cases this

theorem getD_depMap_self (p : String) : getD (depMap p) (kOldVer p) = kVer p := by
  unfold getD
  rw [getA_depMap_self]
  rfl

theorem depRewrite_pres {p : String} {anns : AnnMap} {k v : String}
    (hk : getA anns k = some v) (hd : getA (depMap p) k = none)
    (hch : k ≠ checkedKey) :
    getA (depRewrite p anns) k = some v := by
  have hk0 : getA (setA anns checkedKey ("update")) k = some v := by
    rw [getA_setA_ne _ _ _ _ hch]
    exact hk
  unfold depRewrite
  rcases depKeys_cases p anns with h | h <;> rw [h]
  · exact hk0
  · have hkne : k ≠ kOldVer p := by
      intro he
      rw [he, getA_depMap_self] at hd
      cases hd
    simp only [List.foldl]
    rw [getD_depMap_self]
    rw [getA_delA_ne _ _ _ hkne]
    by_cases hvk : k = kVer p
    · subst hvk
      rw [if_pos (by rw [hk0]; rfl)]
      exact hk0
    · split
      · exact hk0
      · rw [getA_setA_ne _ _ _ _ hvk]
        exact hk0

theorem updA_preserves {p : String} {anns : AnnMap} {k v : String}
    (hk : getA anns k = some v) (hd : getA (depMap p) k = none)
    (hch : k ≠ checkedKey) :
    getA (updDepAnn p anns).2 k = some v := by
  unfold updDepAnn
  cases hc : getA anns checkedKey with
  | some w =>
    dsimp only
    by_cases h1 : w = "valid"
    · simp only [h1, if_true]
      exact hk
    · by_cases h2 : w = "update" <;> simp only [h1, h2, if_true, if_false] <;> exact hk
  | none =>
    dsimp only
    by_cases hv : validScan p anns
    · rw [hv]
      by_cases hd2 : (depKeysOf p anns).isEmpty
      · simp only [Bool.not_true, Bool.false_eq_true, if_false, hd2, if_true]
        rw [getA_setA_ne _ _ _ _ hch]
        exact hk
      · simp only [Bool.not_true, Bool.false_eq_true, if_false,
          Bool.not_eq_true] at hd2 ⊢
        rw [hd2]
        simp only [Bool.false_eq_true, if_false]
        exact depRewrite_pres hk hd hch
    · simp only [Bool.not_eq_true] at hv
      rw [hv]
      simp only [Bool.not_false, if_true]
      rw [getA_setA_ne _ _ _ _ hch]
      exact hk

/-- C9 (amended).  The deprecation rewrite is non-destructive whenever it is
actually reached: on any annotation map, every key that is neither
deprecated nor the `#checked#` sentinel keeps its value; when the sentinel
is absent and the function reports no error, the deprecated key is deleted
and its value is copied to the replacement key exactly when that key was
absent; a value already present under the replacement key is never
overwritten.  (The unamended claim fails on maps carrying the sentinel or an
unknown prefixed key, where the function returns without rewriting.) -/
theorem claim9_deprecation_rewrite (p : String) (anns : AnnMap) :
    (∀ k v, getA anns k = some v → getA (depMap p) k = none → k ≠ checkedKey →
      getA (updDepAnn p anns).2 k = some v) ∧
    (∀ b, getA anns checkedKey = none → (updDepAnn p anns).1 = .okU b →
      getA (updDepAnn p anns).2 (kOldVer p) = none) ∧
    (∀ b w, getA anns checkedKey = none → (updDepAnn p anns).1 = .okU b →
      getA anns (kOldVer p) = some w → getA anns (kVer p) = none →
      getA (updDepAnn p anns).2 (kVer p) = some w) ∧
    (∀ w', getA anns (kVer p) = some w' →
      getA (updDepAnn p anns).2 (kVer p) = some w') := by
  have hverdep : getA (depMap p) (kVer p) = none := by
    cases hg : getA (depMap p) (kVer p) with
    | none => rfl
    | some w => exact absurd (getA_depMap_eq hg).1 (kVer_ne_kOldVer p)
  refine ⟨fun k v hk hd hch => updA_preserves hk hd hch, ?_, ?_,
    fun w' hw => updA_preserves hw hverdep (kVer_ne_checked p)⟩
  · intro b hc hok
    unfold updDepAnn at hok ⊢
    rw [hc] at hok ⊢
    dsimp only at hok ⊢
    by_cases hv : validScan p anns
    · rw [hv] at hok ⊢
      by_cases hd2 : (depKeysOf p anns).isEmpty
      · simp only [Bool.not_true, Bool.false_eq_true, if_false, hd2, if_true]
        rw [getA_setA_ne _ _ _ _ (kOldVer_ne_checked p)]
        exact depKeys_nil_getA (by
          cases hd : depKeysOf p anns with
          | nil => rfl
          | cons a t => rw [hd] at hd2; cases hd2)
      · simp only [Bool.not_eq_true] at hd2
        rw [hd2]
        simp only [Bool.not_true, Bool.false_eq_true, if_false]
        unfold depRewrite
        rcases depKeys_cases p anns with h | h
        · rw [h] at hd2
          cases hd2
        · rw [h]
          simp only [List.foldl]
          rw [getD_depMap_self]
          exact getA_delA_self _ _
    · simp only [Bool.not_eq_true] at hv
      rw [hv] at hok
      simp only [Bool.not_false, if_true] at hok
      cases hok
  · intro b w hc hok hw hnone
    unfold updDepAnn at hok ⊢
    rw [hc] at hok ⊢
    dsimp only at hok ⊢
    by_cases hv : validScan p anns
    · rw [hv] at hok ⊢
      have hne : ¬ (depKeysOf p anns).isEmpty := by
        intro he
        have := depKeys_nil_getA (by
          cases hd : depKeysOf p anns with
          | nil => rfl
          | cons a t => rw [hd] at he; cases he)
        rw [this] at hw
        cases hw
      simp only [Bool.not_true, Bool.false_eq_true, if_false] at hok ⊢
      rcases depKeys_cases p anns with h | h
      · rw [h] at hne
        exact absurd rfl hne
      · have hemp : (depKeysOf p anns).isEmpty = false := by rw [h]; rfl
        rw [hemp] at hok ⊢
        simp only [Bool.false_eq_true, if_false] at hok ⊢
        unfold depRewrite
        rw [h]
        simp only [List.foldl]
        rw [getD_depMap_self]
        have hup : getA (setA anns checkedKey ("update")) (kVer p) = none := by
          rw [getA_setA_ne _ _ _ _ (kVer_ne_checked p)]
          exact hnone
        rw [if_neg (by rw [hup]; simp)]
        rw [getA_delA_ne _ _ _ (kVer_ne_kOldVer p)]
        rw [getA_setA_self]
        have : getD (setA anns checkedKey ("update")) (kOldVer p) = w := by
          unfold getD
          rw [getA_setA_ne _ _ _ _ (kOldVer_ne_checked p), hw]
          rfl
        rw [this]
    · simp only [Bool.not_eq_true] at hv
      rw [hv] at hok
      simp only [Bool.not_false, if_true] at hok
      cases hok

/-- Counterexample to C9 as stated: an object carrying the cached sentinel
`#checked# = "valid"` together with a deprecated key is returned unchanged —
the deprecated key is not deleted. -/
theorem claim9_counterexample :
    updDepAnn defaultPfx [(checkedKey, "valid"), (kOldVer defaultPfx, "9")] =
      (.okU false, [(checkedKey, "valid"), (kOldVer defaultPfx, "9")]) ∧
    getA [(checkedKey, "valid"), (kOldVer defaultPfx, "9")] (kOldVer defaultPfx) =
      some "9" := by
  constructor
  · rfl
  · decide

/-- Witness for C9 at a concrete map: the deprecated key is deleted, its
value copied to the absent replacement key, and an unrelated key survives. -/
theorem claim9_witness :
    getA (updDepAnn defaultPfx
      [(kOldVer defaultPfx, "9"), ("team", "x")]).2 (kOldVer defaultPfx) = none ∧
    getA (updDepAnn defaultPfx
      [(kOldVer defaultPfx, "9"), ("team", "x")]).2 (kVer defaultPfx) = some "9" ∧
    getA (updDepAnn defaultPfx
      [(kOldVer defaultPfx, "9"), ("team", "x")]).2 ("team") = some "x" :=
  ⟨(claim9_deprecation_rewrite defaultPfx
      [(kOldVer defaultPfx, "9"), ("team", "x")]).2.1 true (by decide) (by decide),
   (claim9_deprecation_rewrite defaultPfx
      [(kOldVer defaultPfx, "9"), ("team", "x")]).2.2.1 true "9" (by decide) (by decide)
      (by decide) (by decide),
   (claim9_deprecation_rewrite defaultPfx
      [(kOldVer defaultPfx, "9"), ("team", "x")]).1 "team" "x" (by decide) (by decide)
      (by decide)⟩

theorem validScan_of_noSlash {p : String} {anns : AnnMap} (hp : hasSlash p = false) :
    validScan p anns = true := by
  unfold validScan
  refine List.all_eq_true.mpr ?_
  intro a _
  rw [hp]
  simp

/-- C10 (amended).  Unknown-annotation rejection requires a slash in the
configured prefix: with a slash-free prefix, an object whose annotations
lack the `#checked#` sentinel is never reported invalid, and if it also
carries no deprecated key it is reported valid unchanged (up to the cached
sentinel), whatever unrecognized prefixed keys it carries.  (The unamended
claim fails on maps carrying the sentinel with an unknown cached value,
which are reported invalid for any prefix.) -/
theorem claim10_unknown_key_rejection (p : String) (anns : AnnMap)
    (hp : hasSlash p = false) (hc : getA anns checkedKey = none) :
    (updDepAnn p anns).1 ≠ .errU ∧
    (getA anns (kOldVer p) = none →
      updDepAnn p anns = (.okU false, setA anns checkedKey ("valid"))) := by
  have hvalid := @validScan_of_noSlash p anns hp
  constructor
  · intro he
    unfold updDepAnn at he
    rw [hc] at he
    dsimp only at he
    rw [hvalid] at he
    simp only [Bool.not_true, Bool.false_eq_true, if_false] at he
    by_cases hd : (depKeysOf p anns).isEmpty <;> simp [hd] at he
  · intro hnone
    have hdep : depKeysOf p anns = [] := by
      rcases depKeys_cases p anns with h | h
      · exact h
      · exfalso
        have : kOldVer p ∈ depKeysOf p anns := by rw [h]; simp
        have hmem := (List.mem_filter.mp (by unfold depKeysOf at this; exact this)).1
        have hsome := getA_isSome_of_mem hmem
        rw [hnone] at hsome
        cases hsome
    unfold updDepAnn
    rw [hc]
    dsimp only
    rw [hvalid, hdep]
    rfl

/-- Counterexample to C10 as stated: with the slash-free prefix `"rep-"`
and no deprecated keys, an object carrying the sentinel with an unknown
cached value is reported invalid. -/
theorem claim10_counterexample :
    hasSlash "rep-" = false ∧
    (updDepAnn "rep-" [(checkedKey, "boom")]).1 = .errU ∧
    getA [(checkedKey, "boom")] (kOldVer "rep-") = none := by
  refine ⟨rfl, rfl, by decide⟩

/-- Witness for C10 at a concrete map carrying an unrecognized prefixed
key. -/
theorem claim10_witness :
    updDepAnn "rep-" [("rep-bogus", "x")] =
      (.okU false, setA [("rep-bogus", "x")] checkedKey ("valid")) :=
  (claim10_unknown_key_rejection "rep-" [("rep-bogus", "x")] rfl (by decide)).2
    (by decide)

/-! ### Claims C7 and C5: pattern operations and the target resolver -/

theorem splitFirst_append {c : Char} {a : List Char} (ha : c ∉ a) (b : List Char) :
    splitFirst c (a ++ c :: b) = some (a, b) := by
  induction a with
  | nil => simp [splitFirst]
  | cons d t ih =>
    have hd : ¬(d = c) := fun he => ha (he ▸ List.mem_cons_self d t)
    have ht : c ∉ t := fun hm => ha (List.mem_cons_of_mem d hm)
    show splitFirst c (d :: (t ++ c :: b)) = some (d :: t, b)
    unfold splitFirst
    rw [if_neg hd, ih ht]
    rfl

theorem data_key (ns nm : String) :
    (ns ++ "/" ++ nm).data = ns.data ++ '/' :: nm.data := by
  rw [String.data_append, String.data_append]
  simp

theorem splitN2_key {ns nm : String} (h : hasSlash ns = false) :
    splitN2 (ns ++ "/" ++ nm) = [ns, nm] := by
  have hmem : '/' ∉ ns.data := by
    unfold hasSlash at h
    simpa using h
  unfold splitN2
  rw [data_key, splitFirst_append hmem]

theorem key_ne_empty (x nm : String) : x ++ "/" ++ nm ≠ "" := by
  intro h
  have h2 : (x ++ "/" ++ nm).length = x.length + ("/" : String).length + nm.length := by
    rw [String.length_append, String.length_append]
  rw [h] at h2
  have h3 : ("" : String).length = 0 := rfl
  have h4 : ("/" : String).length = 1 := rfl
  rw [h3, h4] at h2
  omega

/-- C7 (amended).  The three operations of a compiled target pattern agree:
`MatchNamespace` returns the key `ns/name` exactly when the anchored matcher
accepts the namespace (and the empty string otherwise); for any namespace
string without a slash — the only well-formed namespace names —
`MatchString` of `ns/name` holds iff `MatchNamespace` is non-empty; and
`Targets` enumerates, in order, exactly the `MatchNamespace` keys of the
matching candidate namespaces.  (As stated, the `MatchString` equivalence
fails for namespace strings containing a slash, which a regex such as `.*`
can match.) -/
theorem claim7_pattern_ops (tp : TargetPattern) :
    (∀ ns : String,
      (tpMatchNamespace tp ns ≠ "" ↔ tp.rgx.test ns = true) ∧
      (tp.rgx.test ns = true → tpMatchNamespace tp ns = ns ++ "/" ++ tp.name) ∧
      (hasSlash ns = false →
        (tpMatchString tp (ns ++ "/" ++ tp.name) = true ↔ tpMatchNamespace tp ns ≠ ""))) ∧
    (∀ L : List String,
      tpTargets tp L =
        (L.filter (fun x => tpMatchNamespace tp x != "")).map
          (fun x => tpMatchNamespace tp x)) := by
  have hmn : ∀ ns : String, (tpMatchNamespace tp ns ≠ "" ↔ tp.rgx.test ns = true) := by
    intro ns
    unfold tpMatchNamespace
    by_cases ht : tp.rgx.test ns = true
    · rw [if_pos ht]
      exact ⟨fun _ => ht, fun _ => key_ne_empty ns tp.name⟩
    · rw [if_neg ht]
      exact ⟨fun hne => absurd rfl hne, fun he => absurd he ht⟩
  constructor
  · intro ns
    refine ⟨hmn ns, ?_, ?_⟩
    · intro ht
      unfold tpMatchNamespace
      rw [if_pos ht]
    · intro hs
      unfold tpMatchString
      rw [splitN2_key hs]
      dsimp only
      rw [hmn ns]
      simp
  · intro L
    induction L with
    | nil => rfl
    | cons x t ih =>
      unfold tpTargets at ih ⊢
      by_cases ht : tp.rgx.test x = true
      · have hne : (tpMatchNamespace tp x != "") = true := by
          simp only [bne_iff_ne, ne_eq]
          exact (hmn x).mpr ht
        rw [List.filter_cons_of_pos (by simpa using ht),
          List.filter_cons_of_pos (by simpa using hne)]
        dsimp only [List.map]
        rw [← ih]
        unfold tpMatchNamespace
        rw [if_pos ht]
      · have hne : (tpMatchNamespace tp x != "") = false := by
          simp only [bne_eq_false_iff_eq]
          by_contra hcon
          exact ht ((hmn x).mp (by simpa using hcon))
        rw [List.filter_cons_of_neg (by simpa using ht),
          List.filter_cons_of_neg (by simpa using hne)]
        exact ih

/-- Counterexample to C7 as stated: with the realizable pattern `.*` (which
matches any namespace string, slash included), `MatchNamespace("a/b")` is
non-empty while `MatchString("a/b/n")` is false. -/
theorem claim7_counterexample :
    tpMatchNamespace ⟨⟨"^(?:.*)$", fun _ => true⟩, "n"⟩ "a/b" ≠ "" ∧
    tpMatchString ⟨⟨"^(?:.*)$", fun _ => true⟩, "n"⟩ ("a/b" ++ "/" ++ "n") = false := by
  constructor
  · intro h
    have h2 : ("a/b/n" : String) = "" := h
    exact absurd h2 (by decide)
  · rfl

/-- Witness for C7 at a concrete pattern and namespace. -/
theorem claim7_witness :
    tpMatchString ⟨⟨"^(?:team-.*)$", fun s => strStarts s ("team-")⟩, "cfg"⟩
      ("team-a" ++ "/" ++ "cfg") = true ↔
    tpMatchNamespace ⟨⟨"^(?:team-.*)$", fun s => strStarts s ("team-")⟩, "cfg"⟩
      "team-a" ≠ "" :=
  ((claim7_pattern_ops
      ⟨⟨"^(?:team-.*)$", fun s => strStarts s ("team-")⟩, "cfg"⟩).1 "team-a").2.2 rfl

/-- C5.  The `part_002` branch of `getReplicationTargets` computes the
excluded self key with name and namespace swapped, so a source naming
itself in `replicate-to` receives itself as a literal target, contradicting
the function's own contract ("does not contain object itself") and the
spec.  At the failing input the resolved literal targets are exactly the
source's own key. -/
theorem claim5_self_target_bug :
    getReplicationTargetsB (fun _ => none) defaultPfx []
      ⟨"ns1", "obj1", "1", [(kTo defaultPfx, "ns1/obj1")], []⟩ =
      .ok [keyOf ⟨"ns1", "obj1", "1", [(kTo defaultPfx, "ns1/obj1")], []⟩] [] := rfl

/-! ### Claim C6: parse-error handling in `ObjectAdded` -/

theorem getI_eraseI_self {α : Type} (m : List (String × List α)) (k : String) :
    getI (eraseI m k) k = none := by
  induction m with
  | nil => rfl
  | cons a t ih =>
    by_cases h : a.1 = k
    · simp only [eraseI, List.filter_cons, h] at ih ⊢
      simp only [bne_self_eq_false, Bool.false_eq_true, if_false]
      exact ih
    · simp only [eraseI, List.filter_cons, h] at ih ⊢
      simp [getI, List.find?_cons, h, ih]

/-- C6 (amended).  When target resolution fails on an object whose
annotations need no deprecation rewrite, `ObjectAdded` drops
`watchedTargets[k]` and `watchedPatterns[k]` and returns at once: the
`targetsTo` and `targetsFrom` indexes, the object store and the mutation
trace are left exactly as they were.  (As stated the claim fails:
`targetsTo[k]` is not dropped on this path, only the two watch indexes
are.) -/
theorem claim6_parse_error_handling (c : Ctx) (s : EngState) (obj : Obj)
    (anns' : AnnMap)
    (hupd : updDepAnn c.pfx obj.meta.annotations = (.okU false, anns'))
    (hgrt : getReplicationTargets c.oracle c.pfx []
      { obj.meta with annotations := anns' } = .errG) :
    handleObjectAdded c s obj = dropWatched s (keyOf obj.meta) ∧
    getI (handleObjectAdded c s obj).watchedTargets (keyOf obj.meta) = none ∧
    getI (handleObjectAdded c s obj).watchedPatterns (keyOf obj.meta) = none ∧
    (handleObjectAdded c s obj).targetsTo = s.targetsTo ∧
    (handleObjectAdded c s obj).targetsFrom = s.targetsFrom ∧
    (handleObjectAdded c s obj).objects = s.objects ∧
    (handleObjectAdded c s obj).trace = s.trace := by
  have hmain : handleObjectAdded c s obj = dropWatched s (keyOf obj.meta) := by
    unfold handleObjectAdded oaDeprecation
    rw [hupd]
    dsimp only
    have hseed :
        getI (dropWatched s (keyOf obj.meta)).watchedPatterns (keyOf obj.meta) = none := by
      unfold dropWatched
      exact getI_eraseI_self _ _
    rw [hseed]
    dsimp only [Option.getD]
    rw [hgrt]
  refine ⟨hmain, ?_, ?_, ?_, ?_, ?_, ?_⟩ <;> rw [hmain] <;> unfold dropWatched
  · exact getI_eraseI_self _ _
  · exact getI_eraseI_self _ _
  all_goals rfl

/-- Input for the C6 counterexample: the engine context with the default
prefix. -/
def c6ctx : Ctx := ⟨defaultPfx, false, fun _ => none, "T"⟩

/-- Input for the C6 counterexample: a source whose `replicate-to` value
`UP` fails the bare-name character-class check. -/
def c6obj : Obj := ⟨⟨"a", "b", "1", [(kTo defaultPfx, "UP")], []⟩, "d"⟩

/-- Input for the C6 counterexample: a state with a previous `targetsTo`
entry for the source. -/
def c6state : EngState := ⟨[c6obj], [], [], [("a/b", ["c/d"])], [("a/b", ["x"])], [], 0, []⟩

/-- Counterexample to C6 as stated: target resolution fails on `c6obj`, yet
after the handler runs the engine still holds `targetsTo["a/b"]` — the
index is not dropped on the error path. -/
theorem claim6_counterexample :
    getReplicationTargets (fun _ => none) defaultPfx [] c6obj.meta = .errG ∧
    getI (handleObjectAdded c6ctx c6state c6obj).targetsTo "a/b" = some ["c/d"] :=
  ⟨rfl, rfl⟩

/-- Witness for C6 at the concrete input. -/
theorem claim6_witness :
    (handleObjectAdded c6ctx c6state c6obj).targetsTo = c6state.targetsTo ∧
    (handleObjectAdded c6ctx c6state c6obj).trace = c6state.trace ∧
    getI (handleObjectAdded c6ctx c6state c6obj).watchedTargets "a/b" = none :=
  ⟨(claim6_parse_error_handling c6ctx c6state c6obj
      (setA [(kTo defaultPfx, "UP")] checkedKey ("valid")) rfl rfl).2.2.2.1,
   (claim6_parse_error_handling c6ctx c6state c6obj
      (setA [(kTo defaultPfx, "UP")] checkedKey ("valid")) rfl rfl).2.2.2.2.2.2,
   (claim6_parse_error_handling c6ctx c6state c6obj
      (setA [(kTo defaultPfx, "UP")] checkedKey ("valid")) rfl rfl).2.1⟩

/-! ### Claim C1: non-ownership

An object is *unowned* when its annotations carry neither `replicated-by`
nor `replicate-from`.  `safeStep` relates an object store to a later one in
which every unowned object is untouched and every changed slot holds an
owned object; `dataKeep` is the weaker data-preservation relation the claim
asserts (the deprecation write-back may rewrite annotations of an unowned
object, but never its data). -/

/-- Neither `replicated-by` nor `replicate-from` present. -/
def unowned (p : String) (o : Obj) : Prop :=
  getA o.meta.annotations (kBy p) = none ∧ getA o.meta.annotations (kFrom p) = none

/-- An annotation map carrying `replicated-by` or `replicate-from`. -/
def ownedAnns (p : String) (m : AnnMap) : Prop :=
  getA m (kBy p) ≠ none ∨ getA m (kFrom p) ≠ none

/-- Unowned objects keep their exact slot; every changed slot is owned. -/
def safeStep (p : String) (A B : List Obj) : Prop :=
  (∀ k o, lookupS A k = some o → unowned p o → lookupS B k = some o) ∧
  (∀ k o', lookupS B k = some o' → lookupS A k = some o' ∨ ¬ unowned p o')

/-- Every unowned object survives with its data (and unowned status). -/
def dataKeep (p : String) (A B : List Obj) : Prop :=
  ∀ k o, lookupS A k = some o → unowned p o →
    ∃ o', lookupS B k = some o' ∧ o'.data = o.data ∧ unowned p o'

theorem ownedAnns_not_unowned {p : String} {o : Obj}
    (h : ownedAnns p o.meta.annotations) : ¬ unowned p o := by
  intro hu
  rcases h with h | h <;> [exact h hu.1; exact h hu.2]

theorem safeStep_refl (p : String) (A : List Obj) : safeStep p A A :=
  ⟨fun _ _ h _ => h, fun _ _ h => Or.inl h⟩

theorem safeStep_of_eq {p : String} {A B : List Obj} (h : A = B) : safeStep p A B :=
  h ▸ safeStep_refl p A

theorem safeStep_trans {p : String} {A B C : List Obj}
    (h1 : safeStep p A B) (h2 : safeStep p B C) : safeStep p A C := by
  constructor
  · intro k o hl hu
    exact h2.1 k o (h1.1 k o hl hu) hu
  · intro k o' hl
    rcases h2.2 k o' hl with h | h
    · exact h1.2 k o' h
    · exact Or.inr h

theorem safeStep_dataKeep {p : String} {A B : List Obj} (h : safeStep p A B) :
    dataKeep p A B :=
  fun k o hl hu => ⟨o, h.1 k o hl hu, rfl, hu⟩

theorem dataKeep_comp {p : String} {A B C : List Obj}
    (h1 : dataKeep p A B) (h2 : safeStep p B C) : dataKeep p A C := by
  intro k o hl hu
  obtain ⟨o1, hl1, hd1, hu1⟩ := h1 k o hl hu
  exact ⟨o1, h2.1 k o1 hl1 hu1, hd1, hu1⟩

theorem dataKeep_of_eq {p : String} {A B : List Obj} (h : A = B) : dataKeep p A B :=
  fun _k o hl hu => ⟨o, h ▸ hl, rfl, hu⟩

theorem safeStep_ownesSlot {p : String} {A B : List Obj} {k : String}
    (h : safeStep p A B) (hs : ∀ u, lookupS A k = some u → ¬ unowned p u) :
    ∀ u, lookupS B k = some u → ¬ unowned p u := by
  intro u hl
  rcases h.2 k u hl with h2 | h2
  · exact hs u h2
  · exact h2

/-! Store lemmas. -/

theorem lookupS_key {A : List Obj} {k : String} {o : Obj}
    (h : lookupS A k = some o) : keyOf o.meta = k := by
  have h2 := List.find?_some h
  simpa using h2

theorem find?_append_obj (p : Obj → Bool) (l1 l2 : List Obj) :
    List.find? p (l1 ++ l2) = (List.find? p l1).orElse (fun _ => List.find? p l2) := by
  induction l1 with
  | nil => rfl
  | cons a t ih =>
    rw [List.cons_append, List.find?_cons, List.find?_cons]
    by_cases h : p a = true
    · rw [h]
      rfl
    · rw [Bool.not_eq_true] at h
      rw [h]
      exact ih

theorem find?_filter_self (A : List Obj) (k : String) :
    List.find? (fun o => keyOf o.meta == k)
      (A.filter (fun x => keyOf x.meta != k)) = none := by
  induction A with
  | nil => rfl
  | cons a t ih =>
    rw [List.filter_cons]
    by_cases h : keyOf a.meta = k
    · have h2 : (keyOf a.meta != k) = false := by simp [h]
      rw [h2]
      simp only [Bool.false_eq_true, if_false]
      exact ih
    · have h2 : (keyOf a.meta != k) = true := by simp [h]
      rw [h2]
      simp only [if_true]
      rw [List.find?_cons]
      have h3 : (keyOf a.meta == k) = false := by simp [h]
      rw [h3]
      exact ih

theorem find?_filter_key (A : List Obj) (k k0 : String) (h : k ≠ k0) :
    List.find? (fun o => keyOf o.meta == k)
      (A.filter (fun x => keyOf x.meta != k0)) =
    List.find? (fun o => keyOf o.meta == k) A := by
  induction A with
  | nil => rfl
  | cons a t ih =>
    rw [List.filter_cons]
    by_cases h2 : keyOf a.meta = k0
    · have h3 : (keyOf a.meta != k0) = false := by simp [h2]
      rw [h3]
      simp only [Bool.false_eq_true, if_false]
      rw [ih, List.find?_cons]
      have h4 : (keyOf a.meta == k) = false := by
        simp only [beq_eq_false_iff_ne, ne_eq, h2]
        exact fun he => h he.symm
      rw [h4]
    · have h3 : (keyOf a.meta != k0) = true := by simp [h2]
      rw [h3]
      simp only [if_true]
      rw [List.find?_cons, List.find?_cons]
      by_cases h4 : (keyOf a.meta == k) = true
      · rw [h4]
      · rw [Bool.not_eq_true] at h4
        rw [h4]
        exact ih

theorem lookupS_put_self (A : List Obj) (o : Obj) :
    lookupS (storePut A o) (keyOf o.meta) = some o := by
  unfold storePut lookupS
  rw [find?_append_obj, find?_filter_self]
  simp [List.find?_cons]

theorem lookupS_put_ne (A : List Obj) (o : Obj) (k : String)
    (h : k ≠ keyOf o.meta) : lookupS (storePut A o) k = lookupS A k := by
  unfold storePut lookupS
  rw [find?_append_obj, find?_filter_key A k (keyOf o.meta) h]
  cases hf : List.find? (fun x => keyOf x.meta == k) A with
  | some q => rfl
  | none =>
    simp only [Option.orElse, Option.none_orElse]
    rw [List.find?_cons]
    have h2 : (keyOf o.meta == k) = false := by
      simp only [beq_eq_false_iff_ne, ne_eq]
      exact fun he => h he.symm
    rw [h2]
    rfl

theorem lookupS_del_self (A : List Obj) (o : Obj) :
    lookupS (storeDel A o) (keyOf o.meta) = none := by
  unfold storeDel lookupS
  exact find?_filter_self A (keyOf o.meta)

theorem lookupS_del_ne (A : List Obj) (o : Obj) (k : String)
    (h : k ≠ keyOf o.meta) : lookupS (storeDel A o) k = lookupS A k := by
  unfold storeDel lookupS
  exact find?_filter_key A k (keyOf o.meta) h

theorem safeStep_put_owned {p : String} {A : List Obj} {o : Obj}
    (howned : ¬ unowned p o)
    (hprior : ∀ u, lookupS A (keyOf o.meta) = some u → ¬ unowned p u) :
    safeStep p A (storePut A o) := by
  constructor
  · intro k u hl hu
    have hk : k ≠ keyOf o.meta := by
      intro he
      exact hprior u (he ▸ hl) hu
    rw [lookupS_put_ne A o k hk]
    exact hl
  · intro k o' hl
    by_cases hk : k = keyOf o.meta
    · subst hk
      rw [lookupS_put_self] at hl
      exact Or.inr ((Option.some.inj hl) ▸ howned)
    · rw [lookupS_put_ne A o k hk] at hl
      exact Or.inl hl

theorem safeStep_del {p : String} {A : List Obj} {o : Obj}
    (hprior : ∀ u, lookupS A (keyOf o.meta) = some u → ¬ unowned p u) :
    safeStep p A (storeDel A o) := by
  constructor
  · intro k u hl hu
    have hk : k ≠ keyOf o.meta := by
      intro he
      exact hprior u (he ▸ hl) hu
    rw [lookupS_del_ne A o k hk]
    exact hl
  · intro k o' hl
    by_cases hk : k = keyOf o.meta
    · subst hk
      rw [lookupS_del_self] at hl
      cases hl
    · rw [lookupS_del_ne A o k hk] at hl
      exact Or.inl hl

/-! Prefixed-key distinctness and rewrite-preservation lemmas. -/

theorem kne {p a b : String} (h : a ≠ b) : p ++ a ≠ p ++ b :=
  fun he => h (appendCancel he)

theorem kBy_ne_checked (p : String) : kBy p ≠ checkedKey :=
  appendNeShort (by decide)

theorem kFrom_ne_checked (p : String) : kFrom p ≠ checkedKey :=
  appendNeShort (by decide)

theorem kBy_ne_kAt (p : String) : kBy p ≠ kAt p := kne (by decide)

theorem kBy_ne_kVer (p : String) : kBy p ≠ kVer p := kne (by decide)

theorem kBy_ne_kOnceVer (p : String) : kBy p ≠ kOnceVer p := kne (by decide)

theorem kBy_ne_kAllowed (p : String) : kBy p ≠ kAllowed p := kne (by decide)

theorem kBy_ne_kAllowedNs (p : String) : kBy p ≠ kAllowedNs p := kne (by decide)

theorem kFrom_ne_kAt (p : String) : kFrom p ≠ kAt p := kne (by decide)

theorem kFrom_ne_kVer (p : String) : kFrom p ≠ kVer p := kne (by decide)

theorem kFrom_ne_kOnceVer (p : String) : kFrom p ≠ kOnceVer p := kne (by decide)

theorem kFrom_ne_kAllowed (p : String) : kFrom p ≠ kAllowed p := kne (by decide)

theorem kFrom_ne_kAllowedNs (p : String) : kFrom p ≠ kAllowedNs p := kne (by decide)

theorem getA_append_left {m1 m2 : AnnMap} {k v : String}
    (h : getA m1 k = some v) : getA (m1 ++ m2) k = some v := by
  rw [getA_append, h]
  rfl

theorem depRewrite_getA_other {p : String} {anns : AnnMap} {k : String}
    (h1 : k ≠ checkedKey) (h2 : k ≠ kOldVer p) (h3 : k ≠ kVer p) :
    getA (depRewrite p anns) k = getA anns k := by
  unfold depRewrite
  rcases depKeys_cases p anns with h | h <;> rw [h]
  · exact getA_setA_ne _ _ _ _ h1
  · simp only [List.foldl]
    rw [getD_depMap_self, getA_delA_ne _ _ _ h2]
    split
    · exact getA_setA_ne _ _ _ _ h1
    · rw [getA_setA_ne _ _ _ _ h3]
      exact getA_setA_ne _ _ _ _ h1

theorem updA_getA_other {p : String} {anns : AnnMap} {k : String}
    (h1 : k ≠ checkedKey) (h2 : k ≠ kOldVer p) (h3 : k ≠ kVer p) :
    getA (updDepAnn p anns).2 k = getA anns k := by
  unfold updDepAnn
  cases hc : getA anns checkedKey with
  | some w =>
    dsimp only
    split
    · rfl
    · split <;> rfl
  | none =>
    dsimp only
    split
    · exact getA_setA_ne _ _ _ _ h1
    · split
      · exact getA_setA_ne _ _ _ _ h1
      · exact depRewrite_getA_other h1 h2 h3

theorem updA_getA_kBy (p : String) (anns : AnnMap) :
    getA (updDepAnn p anns).2 (kBy p) = getA anns (kBy p) :=
  updA_getA_other (kBy_ne_checked p) (kne (by decide)) (kne (by decide))

theorem updA_getA_kFrom (p : String) (anns : AnnMap) :
    getA (updDepAnn p anns).2 (kFrom p) = getA anns (kFrom p) :=
  updA_getA_other (kFrom_ne_checked p) (kne (by decide)) (kne (by decide))

/-! Lemmas about `objectFromStore`. -/

theorem fetch_objects (p : String) (s : EngState) (key : String) (b : Bool) :
    (fetch p s key b).2.objects = s.objects := by
  unfold fetch
  cases hl : lookupS s.objects key with
  | none => cases b <;> rfl
  | some o =>
    dsimp only
    rcases hud : updDepAnn p o.meta.annotations with ⟨r, anns2⟩
    cases r <;> rfl

theorem fetch_found_state {p : String} {s : EngState} {key : String} {b : Bool}
    {o : Obj} (h : (fetch p s key b).1 = .found o) : (fetch p s key b).2 = s := by
  unfold fetch at h ⊢
  cases hl : lookupS s.objects key with
  | none =>
    rw [hl] at h
    cases b <;> simp at h
  | some u =>
    rw [hl] at h
    dsimp only at h ⊢
    rcases hud : updDepAnn p u.meta.annotations with ⟨r, anns2⟩
    rw [hud] at h
    cases r with
    | errU => simp at h
    | okU ch => rfl

theorem fetch_found_src {p : String} {s : EngState} {key : String} {b : Bool}
    {o : Obj} (h : (fetch p s key b).1 = .found o) :
    ∃ u, lookupS s.objects key = some u ∧ o.meta.ns = u.meta.ns ∧
      o.meta.name = u.meta.name ∧ o.data = u.data ∧
      getA o.meta.annotations (kBy p) = getA u.meta.annotations (kBy p) ∧
      getA o.meta.annotations (kFrom p) = getA u.meta.annotations (kFrom p) := by
  unfold fetch at h
  cases hl : lookupS s.objects key with
  | none =>
    rw [hl] at h
    cases b <;> simp at h
  | some u =>
    rw [hl] at h
    dsimp only at h
    rcases hud : updDepAnn p u.meta.annotations with ⟨r, anns2⟩
    rw [hud] at h
    cases r with
    | errU => simp at h
    | okU ch =>
      dsimp only at h
      have ho : o = { u with meta := { u.meta with annotations := anns2 } } := by
        cases h
        rfl
      subst ho
      have h2 : (updDepAnn p u.meta.annotations).2 = anns2 := by rw [hud]
      refine ⟨u, rfl, rfl, rfl, rfl, ?_, ?_⟩
      · rw [← h2]
        exact updA_getA_kBy p u.meta.annotations
      · rw [← h2]
        exact updA_getA_kFrom p u.meta.annotations

theorem fetch_found_key {p : String} {s : EngState} {key : String} {b : Bool}
    {o : Obj} (h : (fetch p s key b).1 = .found o) : keyOf o.meta = key := by
  obtain ⟨u, hl, hns, hnm, _, _, _⟩ := fetch_found_src h
  have := lookupS_key hl
  unfold keyOf at this ⊢
  rw [hns, hnm]
  exact this

theorem fetch_found_slot_owned {p : String} {s : EngState} {key : String} {b : Bool}
    {o : Obj} (h : (fetch p s key b).1 = .found o)
    (howned : ownedAnns p o.meta.annotations) :
    ∀ u, lookupS s.objects key = some u → ¬ unowned p u := by
  obtain ⟨u, hl, _, _, _, hby, hfrom⟩ := fetch_found_src h
  intro w hw
  have hwu : w = u := by
    rw [hl] at hw
    exact (Option.some.inj hw).symm
  subst hwu
  intro hu
  rcases howned with h2 | h2
  · rw [hby] at h2
    exact h2 hu.1
  · rw [hfrom] at h2
    exact h2 hu.2

theorem fetch_absent {p : String} {s : EngState} {key : String} {b : Bool}
    (h : (fetch p s key b).1 = .absent) : lookupS s.objects key = none := by
  unfold fetch at h
  cases hl : lookupS s.objects key with
  | none => rfl
  | some u =>
    rw [hl] at h
    dsimp only at h
    rcases hud : updDepAnn p u.meta.annotations with ⟨r, anns2⟩
    rw [hud] at h
    cases r <;> simp at h

theorem splitFirst_recover {c : Char} :
    ∀ {l x y : List Char}, splitFirst c l = some (x, y) → l = x ++ c :: y := by
  intro l
  induction l with
  | nil => intro x y h; cases h
  | cons d t ih =>
    intro x y h
    unfold splitFirst at h
    by_cases hd : d = c
    · rw [if_pos hd] at h
      simp only [Option.some.injEq, Prod.mk.injEq] at h
      obtain ⟨hx, hy⟩ := h
      subst hx
      subst hy
      rw [hd]
      rfl
    · rw [if_neg hd] at h
      obtain ⟨q, hq, hmap⟩ := Option.map_eq_some'.mp h
      rcases q with ⟨q1, q2⟩
      simp only [Prod.mk.injEq] at hmap
      obtain ⟨hx, hy⟩ := hmap
      subst hx
      subst hy
      rw [List.cons_append]
      rw [← ih hq]

theorem splitN2_eq {s a b : String} (h : splitN2 s = [a, b]) : s = a ++ "/" ++ b := by
  unfold splitN2 at h
  cases hsf : splitFirst '/' s.data with
  | none => rw [hsf] at h; cases h
  | some q =>
    rcases q with ⟨x, y⟩
    rw [hsf] at h
    dsimp only at h
    simp only [List.cons.injEq, and_true] at h
    obtain ⟨ha, hb⟩ := h
    subst ha
    subst hb
    apply strExt
    rw [data_key]
    exact splitFirst_recover hsf

theorem resolveAnn_getA {m : ObjMeta} {k v : String} (h : resolveAnn m k = some v) :
    getA m.annotations k ≠ none := by
  intro he
  unfold resolveAnn at h
  rw [he] at h
  simp at h

theorem isReplicatedBy_some {p : String} {m sm : ObjMeta}
    (h : isReplicatedBy p m sm = true) : getA m.annotations (kBy p) ≠ none := by
  intro he
  unfold isReplicatedBy at h
  rw [he] at h
  simp at h

/-! Per-procedure safety lemmas: every sub-procedure of the engine is a
`safeStep` on the object store (some need the precondition that the slot
they may write holds an owned object or is empty). -/

theorem doClearObject_safe (c : Ctx) (s : EngState) (obj : Obj)
    (hobj : ownedAnns c.pfx obj.meta.annotations)
    (hslot : ∀ u, lookupS s.objects (keyOf obj.meta) = some u → ¬ unowned c.pfx u) :
    safeStep c.pfx s.objects (doClearObject c s obj).objects := by
  unfold doClearObject
  cases hv : getA obj.meta.annotations (kVer c.pfx) with
  | none => exact safeStep_refl _ _
  | some w =>
    dsimp only [actClear]
    apply safeStep_put_owned
    · apply ownedAnns_not_unowned
      rcases hobj with h | h
      · refine Or.inl ?_
        rw [getA_delA_ne _ _ _ (kBy_ne_kOnceVer c.pfx),
          getA_delA_ne _ _ _ (kBy_ne_kVer c.pfx),
          getA_setA_ne _ _ _ _ (kBy_ne_kAt c.pfx),
          getA_delA_ne _ _ _ (kBy_ne_checked c.pfx)]
        exact h
      · refine Or.inr ?_
        rw [getA_delA_ne _ _ _ (kFrom_ne_kOnceVer c.pfx),
          getA_delA_ne _ _ _ (kFrom_ne_kVer c.pfx),
          getA_setA_ne _ _ _ _ (kFrom_ne_kAt c.pfx),
          getA_delA_ne _ _ _ (kFrom_ne_checked c.pfx)]
        exact h
    · exact hslot

theorem doDeleteObject_safe (c : Ctx) (s : EngState) (obj : Obj)
    (hslot : ∀ u, lookupS s.objects (keyOf obj.meta) = some u → ¬ unowned c.pfx u) :
    safeStep c.pfx s.objects (doDeleteObject s obj).objects := by
  unfold doDeleteObject actDelete
  dsimp only
  exact safeStep_del hslot

theorem doInstallObject_safe (c : Ctx) (s : EngState) (m : ObjMeta) (srcObj : Obj)
    (dataObj : Option Obj) (hm : ownedAnns c.pfx m.annotations)
    (hslot : ∀ u, lookupS s.objects (m.ns ++ "/" ++ m.name) = some u →
      ¬ unowned c.pfx u) :
    safeStep c.pfx s.objects (doInstallObject c s m srcObj dataObj).objects := by
  unfold doInstallObject actInstall
  dsimp only
  apply safeStep_put_owned
  · apply ownedAnns_not_unowned
    rcases hm with h | h
    · refine Or.inl ?_
      rw [getA_delA_ne _ _ _ (kBy_ne_checked c.pfx)]
      exact h
    · refine Or.inr ?_
      rw [getA_delA_ne _ _ _ (kFrom_ne_checked c.pfx)]
      exact h
  · exact hslot

theorem replicateObject_safe (c : Ctx) (s : EngState) (obj srcObj : Obj)
    (hfrom : getA obj.meta.annotations (kFrom c.pfx) ≠ none)
    (hslot : ∀ u, lookupS s.objects (keyOf obj.meta) = some u → ¬ unowned c.pfx u) :
    safeStep c.pfx s.objects (replicateObject c s obj srcObj).objects := by
  unfold replicateObject
  dsimp only
  cases isRepAllowedAnn c.allowAll c.oracle c.pfx obj.meta srcObj.meta with
  | disallowed =>
    dsimp only
    split
    · exact doClearObject_safe c s obj (Or.inr hfrom) hslot
    · exact safeStep_refl _ _
  | errP => exact safeStep_refl _ _
  | allowed =>
    dsimp only
    rcases needsDataUpdate c.pfx obj.meta srcObj.meta with ⟨b1, b2⟩
    cases b1 with
    | false => exact safeStep_refl _ _
    | true =>
      dsimp only [actUpdate]
      cases h1 : getA srcObj.meta.annotations (kOnceVer c.pfx) with
      | some v =>
        dsimp only
        apply safeStep_put_owned
        · apply ownedAnns_not_unowned
          refine Or.inr ?_
          rw [getA_setA_ne _ _ _ _ (kFrom_ne_kOnceVer c.pfx),
            getA_setA_ne _ _ _ _ (kFrom_ne_kVer c.pfx),
            getA_setA_ne _ _ _ _ (kFrom_ne_kAt c.pfx),
            getA_delA_ne _ _ _ (kFrom_ne_checked c.pfx)]
          exact hfrom
        · exact hslot
      | none =>
        dsimp only
        apply safeStep_put_owned
        · apply ownedAnns_not_unowned
          refine Or.inr ?_
          rw [getA_delA_ne _ _ _ (kFrom_ne_kOnceVer c.pfx),
            getA_setA_ne _ _ _ _ (kFrom_ne_kVer c.pfx),
            getA_setA_ne _ _ _ _ (kFrom_ne_kAt c.pfx),
            getA_delA_ne _ _ _ (kFrom_ne_checked c.pfx)]
          exact hfrom
        · exact hslot

theorem installObject3_safe (c : Ctx) (s : EngState) (tns tname : String)
    (tObj : Option Obj) (srcObj : Obj)
    (hslot : ∀ u, lookupS s.objects (tns ++ "/" ++ tname) = some u →
      ¬ unowned c.pfx u) :
    safeStep c.pfx s.objects (installObject3 c s tns tname tObj srcObj).2.objects := by
  unfold installObject3
  dsimp only
  have hne : kAt c.pfx ≠ kBy c.pfx := kne (by decide)
  cases h1 : getA srcObj.meta.annotations (kOnceVer c.pfx) <;>
    cases h2 : getA srcObj.meta.annotations (kAllowed c.pfx) <;>
      cases h3 : getA srcObj.meta.annotations (kAllowedNs c.pfx) <;>
        dsimp only <;>
          refine doInstallObject_safe c s _ srcObj _ (Or.inl ?_) hslot <;>
            intro he <;>
              (try simp only [List.cons_append, List.nil_append] at he) <;>
                rw [getA_cons, if_neg hne, getA_cons, if_pos rfl] at he <;>
                  cases he

theorem ownedAnns_setA {p k v : String} {m : AnnMap}
    (hk1 : kBy p ≠ k) (hk2 : kFrom p ≠ k) (h : ownedAnns p m) :
    ownedAnns p (setA m k v) := by
  rcases h with h | h
  · refine Or.inl ?_
    rw [getA_setA_ne _ _ _ _ hk1]
    exact h
  · refine Or.inr ?_
    rw [getA_setA_ne _ _ _ _ hk2]
    exact h

theorem ownedAnns_delA {p k : String} {m : AnnMap}
    (hk1 : kBy p ≠ k) (hk2 : kFrom p ≠ k) (h : ownedAnns p m) :
    ownedAnns p (delA m k) := by
  rcases h with h | h
  · refine Or.inl ?_
    rw [getA_delA_ne _ _ _ hk1]
    exact h
  · refine Or.inr ?_
    rw [getA_delA_ne _ _ _ hk2]
    exact h

theorem installObject2_safe (c : Ctx) (s : EngState) (tns tname : String)
    (tObj : Option Obj) (srcObj : Obj)
    (hslot : ∀ u, lookupS s.objects (tns ++ "/" ++ tname) = some u →
      ¬ unowned c.pfx u)
    (hT : ∀ t, tObj = some t → ownedAnns c.pfx t.meta.annotations ∧
      keyOf t.meta = tns ++ "/" ++ tname) :
    safeStep c.pfx s.objects (installObject2 c s tns tname tObj srcObj).2.objects := by
  unfold installObject2
  dsimp only
  cases hres : resolveAnn srcObj.meta (kFrom c.pfx) with
  | some source =>
    dsimp only
    cases tObj with
    | none =>
      dsimp only
      cases honce : getA srcObj.meta.annotations (kOnce c.pfx) <;>
        dsimp only <;>
          refine doInstallObject_safe c s _ srcObj _ (Or.inl ?_) hslot <;>
            intro he <;>
              (try simp only [List.cons_append, List.nil_append] at he) <;>
                rw [getA_cons, if_pos rfl] at he <;>
                  cases he
    | some t =>
      dsimp only
      cases hupd : needsFromAnnUpd c.pfx t.meta srcObj.meta with
      | none => exact safeStep_refl _ _
      | some b =>
        cases b with
        | false => exact safeStep_refl _ _
        | true =>
          dsimp only
          cases honce : getA srcObj.meta.annotations (kOnce c.pfx) <;>
            dsimp only <;>
              refine doInstallObject_safe c s _ srcObj _ (Or.inl ?_) hslot <;>
                intro he <;>
                  (try simp only [List.cons_append, List.nil_append] at he) <;>
                    rw [getA_cons, if_pos rfl] at he <;>
                      cases he
  | none =>
    dsimp only
    cases tObj with
    | none => exact installObject3_safe c s tns tname none srcObj hslot
    | some t =>
      obtain ⟨hTo, hTk⟩ := hT t rfl
      dsimp only
      by_cases hf : (getA t.meta.annotations (kFrom c.pfx)).isSome
      · rw [if_pos hf]
        exact installObject3_safe c s tns tname (some t) srcObj hslot
      · rw [if_neg hf]
        rcases needsDataUpdate c.pfx t.meta srcObj.meta with ⟨b1, once⟩
        cases b1 with
        | true => exact installObject3_safe c s tns tname (some t) srcObj hslot
        | false =>
          cases once with
          | false =>
            dsimp only
            rw [if_pos (show (!false) = true from rfl)]
            exact safeStep_refl _ _
          | true =>
            dsimp only
            rw [if_neg (show ¬((!true) = true) from by decide)]
            cases hgo : needsAllowedAnnUpd c.oracle c.pfx t.meta srcObj.meta with
            | none => exact safeStep_refl _ _
            | some gb =>
              cases gb with
              | false => exact safeStep_refl _ _
              | true =>
                dsimp only
                have hkey : t.meta.ns ++ "/" ++ t.meta.name = tns ++ "/" ++ tname := hTk
                have hslot2 : ∀ u,
                    lookupS s.objects (t.meta.ns ++ "/" ++ t.meta.name) = some u →
                      ¬ unowned c.pfx u := by
                  intro u hu
                  exact hslot u (hkey ▸ hu)
                cases hA : getA srcObj.meta.annotations (kAllowed c.pfx) <;>
                  cases hAN : getA srcObj.meta.annotations (kAllowedNs c.pfx) <;>
                    dsimp only <;>
                      refine doInstallObject_safe c s _ srcObj _ ?_ hslot2 <;>
                        first
                          | exact ownedAnns_setA (kBy_ne_kAllowedNs c.pfx)
                              (kFrom_ne_kAllowedNs c.pfx)
                              (ownedAnns_setA (kBy_ne_kAllowed c.pfx)
                                (kFrom_ne_kAllowed c.pfx) hTo)
                          | exact ownedAnns_setA (kBy_ne_kAllowedNs c.pfx)
                              (kFrom_ne_kAllowedNs c.pfx)
                              (ownedAnns_delA (kBy_ne_kAllowed c.pfx)
                                (kFrom_ne_kAllowed c.pfx) hTo)
                          | exact ownedAnns_delA (kBy_ne_kAllowedNs c.pfx)
                              (kFrom_ne_kAllowedNs c.pfx)
                              (ownedAnns_setA (kBy_ne_kAllowed c.pfx)
                                (kFrom_ne_kAllowed c.pfx) hTo)
                          | exact ownedAnns_delA (kBy_ne_kAllowedNs c.pfx)
                              (kFrom_ne_kAllowedNs c.pfx)
                              (ownedAnns_delA (kBy_ne_kAllowed c.pfx)
                                (kFrom_ne_kAllowed c.pfx) hTo)

theorem installObject_safe (c : Ctx) (s : EngState) (target : String)
    (targetObject : Option Obj) (srcObj : Obj)
    (hT : ∀ t, targetObject = some t → ownedAnns c.pfx t.meta.annotations ∧
      (∀ u, lookupS s.objects (keyOf t.meta) = some u → ¬ unowned c.pfx u)) :
    safeStep c.pfx s.objects
      (installObject c s target targetObject srcObj).2.objects := by
  unfold installObject
  cases targetObject with
  | some tobj =>
    dsimp only
    refine installObject2_safe c s tobj.meta.ns tobj.meta.name (some tobj) srcObj
      (hT tobj rfl).2 ?_
    intro t ht
    cases ht
    exact ⟨(hT tobj rfl).1, rfl⟩
  | none =>
    dsimp only
    cases hsp : splitN2 target with
    | nil => exact safeStep_refl _ _
    | cons a l2 =>
      cases l2 with
      | nil => exact safeStep_refl _ _
      | cons b l3 =>
        cases l3 with
        | cons d l4 => exact safeStep_refl _ _
        | nil =>
          dsimp only
          have htg : target = a ++ "/" ++ b := splitN2_eq hsp
          rcases hfet : fetch c.pfx s target false with ⟨fr, s1⟩
          have hso : s1.objects = s.objects := by
            have h2 := fetch_objects c.pfx s target false
            rw [hfet] at h2
            exact h2
          cases fr with
          | errF => exact safeStep_of_eq hso.symm
          | absent =>
            have h1 : (fetch c.pfx s target false).1 = .absent := by rw [hfet]
            have hnone := fetch_absent h1
            have hres := installObject2_safe c s1 a b none srcObj
              (by
                intro u hu
                rw [hso, ← htg, hnone] at hu
                cases hu)
              (fun t ht => by cases ht)
            rw [hso] at hres
            exact hres
          | found tobj =>
            dsimp only
            have h1 : (fetch c.pfx s target false).1 = .found tobj := by rw [hfet]
            have hs1 : s1 = s := by
              have h3 := congrArg Prod.snd hfet
              dsimp only at h3
              exact h3 ▸ fetch_found_state h1
            cases hrep : isReplicatedBy c.pfx tobj.meta srcObj.meta with
            | false =>
              rw [if_neg (show ¬(false = true) from by decide)]
              exact safeStep_of_eq hso.symm
            | true =>
              rw [if_pos (show true = true from rfl)]
              have howned : ownedAnns c.pfx tobj.meta.annotations :=
                Or.inl (isReplicatedBy_some hrep)
              have hres := installObject2_safe c s1 a b (some tobj) srcObj
                (by
                  intro u hu
                  rw [hso, ← htg] at hu
                  exact fetch_found_slot_owned h1 howned u hu)
                (by
                  intro t ht
                  cases ht
                  exact ⟨howned, (fetch_found_key h1).trans htg⟩)
              rw [hso] at hres
              exact hres

theorem annRefersTo_some {m : ObjMeta} {k : String} {ref : ObjMeta}
    (h : annRefersTo m k ref = true) : getA m.annotations k ≠ none := by
  intro he
  unfold annRefersTo at h
  rw [he] at h
  simp at h

theorem dropWatched_objects (s : EngState) (k : String) :
    (dropWatched s k).objects = s.objects := rfl

theorem clearObject_safe (c : Ctx) (s : EngState) (key : String) (srcObj : Obj) :
    safeStep c.pfx s.objects (clearObject c s key srcObj).2.objects := by
  unfold clearObject
  rcases hfet : fetch c.pfx s key true with ⟨fr, s1⟩
  have hso : s1.objects = s.objects := by
    have h2 := fetch_objects c.pfx s key true
    rw [hfet] at h2
    exact h2
  cases fr with
  | errF => exact safeStep_of_eq hso.symm
  | absent => exact safeStep_of_eq hso.symm
  | found tobj =>
    dsimp only
    have h1 : (fetch c.pfx s key true).1 = .found tobj := by rw [hfet]
    cases href : annRefersTo tobj.meta (kFrom c.pfx) srcObj.meta with
    | false =>
      rw [if_neg (show ¬(false = true) from by decide)]
      exact safeStep_of_eq hso.symm
    | true =>
      rw [if_pos (show true = true from rfl)]
      dsimp only
      have howned : ownedAnns c.pfx tobj.meta.annotations :=
        Or.inr (annRefersTo_some href)
      have hkey := fetch_found_key h1
      have hres := doClearObject_safe c s1 tobj howned (by
        intro u hu
        rw [hso, hkey] at hu
        exact fetch_found_slot_owned h1 howned u hu)
      rw [hso] at hres
      exact hres

theorem deleteObject_safe (c : Ctx) (s : EngState) (key : String) (srcObj : Obj) :
    safeStep c.pfx s.objects (deleteObject c s key srcObj).objects := by
  unfold deleteObject
  rcases hfet : fetch c.pfx s key true with ⟨fr, s1⟩
  have hso : s1.objects = s.objects := by
    have h2 := fetch_objects c.pfx s key true
    rw [hfet] at h2
    exact h2
  cases fr with
  | errF => exact safeStep_of_eq hso.symm
  | absent => exact safeStep_of_eq hso.symm
  | found tobj =>
    dsimp only
    have h1 : (fetch c.pfx s key true).1 = .found tobj := by rw [hfet]
    cases hrep : isReplicatedBy c.pfx tobj.meta srcObj.meta with
    | false =>
      rw [if_neg (show ¬(false = true) from by decide)]
      exact safeStep_of_eq hso.symm
    | true =>
      rw [if_pos (show true = true from rfl)]
      have howned : ownedAnns c.pfx tobj.meta.annotations :=
        Or.inl (isReplicatedBy_some hrep)
      have hkey := fetch_found_key h1
      have hres := doDeleteObject_safe c s1 tobj (by
        intro u hu
        rw [hso, hkey] at hu
        exact fetch_found_slot_owned h1 howned u hu)
      rw [hso] at hres
      exact hres

theorem foldl_delete_safe (c : Ctx) (obj : Obj) :
    ∀ (ts : List String) (s : EngState),
      safeStep c.pfx s.objects
        (ts.foldl (fun s t => deleteObject c s t obj) s).objects := by
  intro ts
  induction ts with
  | nil => intro s; exact safeStep_refl _ _
  | cons t rest ih =>
    intro s
    rw [List.foldl_cons]
    exact safeStep_trans (deleteObject_safe c s t obj) (ih _)

theorem oaInstallLoop_safe (c : Ctx) (obj : Obj) :
    ∀ (l : List String) (s : EngState),
      safeStep c.pfx s.objects (oaInstallLoop c obj l s).objects := by
  intro l
  induction l with
  | nil => intro s; exact safeStep_refl _ _
  | cons t rest ih =>
    intro s
    unfold oaInstallLoop
    exact safeStep_trans
      (installObject_safe c s t none obj (fun _ ht => by cases ht)) (ih _)

theorem oaStaleLoop_safe (c : Ctx) (obj : Obj) (targets : List String)
    (pats : List TargetPattern) :
    ∀ (l : List String) (prev : String) (s : EngState),
      safeStep c.pfx s.objects (oaStaleLoop c obj targets pats l prev s).objects := by
  intro l
  induction l with
  | nil => intro prev s; exact safeStep_refl _ _
  | cons t rest ih =>
    intro prev s
    unfold oaStaleLoop
    split
    · exact ih _ _
    · split
      · exact ih _ _
      · exact safeStep_trans (deleteObject_safe c s t obj) (ih _ _)

theorem oaDependentsLoop_safe (c : Ctx) (key : String) (obj : Obj) :
    ∀ (l : List String) (prev : String) (kept : List String) (s : EngState),
      safeStep c.pfx s.objects
        (oaDependentsLoop c key obj l prev kept s).2.objects := by
  intro l
  induction l with
  | nil => intro prev kept s; exact safeStep_refl _ _
  | cons d rest ih =>
    intro prev kept s
    unfold oaDependentsLoop
    split
    · exact ih _ _ _
    · rcases hfet : fetch c.pfx s d true with ⟨fr, s1⟩
      have hso : s1.objects = s.objects := by
        have h2 := fetch_objects c.pfx s d true
        rw [hfet] at h2
        exact h2
      cases fr with
      | errF =>
        dsimp only
        have h := ih d kept s1
        rw [hso] at h
        exact h
      | absent =>
        dsimp only
        have h := ih d kept s1
        rw [hso] at h
        exact h
      | found tobj =>
        dsimp only
        have h1 : (fetch c.pfx s d true).1 = .found tobj := by rw [hfet]
        split
        · next hbeq =>
            have hres2 : resolveAnn tobj.meta (kFrom c.pfx) = some key :=
              eq_of_beq hbeq
            have hfrom := resolveAnn_getA hres2
            have hs1 : s1 = s := by
              have h3 := congrArg Prod.snd hfet
              dsimp only at h3
              exact h3 ▸ fetch_found_state h1
            have hkey := fetch_found_key h1
            have hstep := replicateObject_safe c s1 tobj obj hfrom (by
              intro u hu
              rw [hs1, hkey] at hu
              exact fetch_found_slot_owned h1 (Or.inr hfrom) u hu)
            have hcomp := safeStep_trans hstep (ih d (kept ++ [d]) _)
            rw [hso] at hcomp
            exact hcomp
        · have h := ih d kept s1
          rw [hso] at h
          exact h

theorem odClearLoop_safe (c : Ctx) (obj : Obj) :
    ∀ (l : List String) (prev : String) (kept : List String) (s : EngState),
      safeStep c.pfx s.objects (odClearLoop c obj l prev kept s).2.objects := by
  intro l
  induction l with
  | nil => intro prev kept s; exact safeStep_refl _ _
  | cons d rest ih =>
    intro prev kept s
    unfold odClearLoop
    split
    · exact ih _ _ _
    · rcases hcl : clearObject c s d obj with ⟨b, s1⟩
      have hstep : safeStep c.pfx s.objects s1.objects := by
        have h := clearObject_safe c s d obj
        rw [hcl] at h
        exact h
      cases b <;> dsimp only <;> exact safeStep_trans hstep (ih _ _ _)

theorem odClearLoop_safeE {c : Ctx} {obj : Obj} {l : List String} {prev : String}
    {kept0 kept : List String} {s s' : EngState}
    (h : odClearLoop c obj l prev kept0 s = (kept, s')) :
    safeStep c.pfx s.objects s'.objects := by
  have h2 := odClearLoop_safe c obj l prev kept0 s
  rw [h] at h2
  exact h2

theorem odInstallLoop_safe (c : Ctx) (key : String) (m : ObjMeta) :
    ∀ (l : List String) (s : EngState),
      safeStep c.pfx s.objects (odInstallLoop c key m l s).objects := by
  intro l
  induction l with
  | nil => intro s; exact safeStep_refl _ _
  | cons src rest ih =>
    intro s
    unfold odInstallLoop
    rcases hfet : fetch c.pfx s src true with ⟨fr, s1⟩
    have hso : s1.objects = s.objects := by
      have h2 := fetch_objects c.pfx s src true
      rw [hfet] at h2
      exact h2
    cases fr with
    | errF =>
      dsimp only
      have h := ih s1
      rw [hso] at h
      exact h
    | absent =>
      dsimp only
      have h := ih s1
      rw [hso] at h
      exact h
    | found srcObj =>
      dsimp only
      cases isReplicatedTo c.oracle c.pfx
          ((getI s1.watchedPatterns (keyOf srcObj.meta)).getD []) srcObj.meta m with
      | none =>
        have h := ih (dropWatched s1 src)
        rw [dropWatched_objects, hso] at h
        exact h
      | some b =>
        cases b with
        | false =>
          dsimp only
          have h := ih s1
          rw [hso] at h
          exact h
        | true =>
          dsimp only
          have h := installObject_safe c s1 key none srcObj (fun _ ht => by cases ht)
          rw [hso] at h
          exact h

theorem replicateToNamespace_safe (c : Ctx) (s : EngState) (obj : Obj)
    (nsName : String) :
    safeStep c.pfx s.objects (replicateToNamespace c s obj nsName).objects := by
  unfold replicateToNamespace
  dsimp only
  split
  · exact safeStep_refl _ _
  · cases hg : getReplicationTargets c.oracle c.pfx
        ((getI s.watchedPatterns (keyOf obj.meta)).getD []) obj.meta with
    | errG => exact safeStep_refl _ _
    | noAnn =>
      dsimp only
      split
      · exact safeStep_refl _ _
      · exact oaInstallLoop_safe c obj _ s
    | ok t q =>
      dsimp only
      split
      · exact safeStep_refl _ _
      · exact oaInstallLoop_safe c obj _ s

theorem naLoop_safe (c : Ctx) (nsName : String) :
    ∀ (l : List String) (s : EngState),
      safeStep c.pfx s.objects (naLoop c nsName l s).objects := by
  intro l
  induction l with
  | nil => intro s; exact safeStep_refl _ _
  | cons src rest ih =>
    intro s
    unfold naLoop
    rcases hfet : fetch c.pfx s src true with ⟨fr, s1⟩
    have hso : s1.objects = s.objects := by
      have h2 := fetch_objects c.pfx s src true
      rw [hfet] at h2
      exact h2
    cases fr with
    | errF =>
      dsimp only
      have h := ih s1
      rw [hso] at h
      exact h
    | absent =>
      dsimp only
      have h := ih s1
      rw [hso] at h
      exact h
    | found srcObj =>
      dsimp only
      have hstep := replicateToNamespace_safe c s1 srcObj nsName
      rw [hso] at hstep
      exact safeStep_trans hstep (ih _)

theorem handleNamespaceAdded_safe (c : Ctx) (s : EngState) (nsName : String) :
    safeStep c.pfx s.objects (handleNamespaceAdded c s nsName).objects := by
  unfold handleNamespaceAdded
  exact naLoop_safe c nsName _ s

theorem oaInstallLoop_safeO {c : Ctx} {obj : Obj} {A : List Obj}
    (l : List String) (s : EngState) (h : s.objects = A) :
    safeStep c.pfx A (oaInstallLoop c obj l s).objects :=
  h ▸ oaInstallLoop_safe c obj l s

theorem oaPush_safe (c : Ctx) (s : EngState) (key : String) (obj : Obj)
    (targets : List String) (pats : List TargetPattern) :
    safeStep c.pfx s.objects (oaPush c s key obj targets pats).objects := by
  unfold oaPush
  dsimp only
  repeat' split
  all_goals
    first
      | exact safeStep_refl _ _
      | exact oaInstallLoop_safeO _ _ rfl

theorem oaFrom_safe (c : Ctx) (s : EngState) (key : String) (obj : Obj)
    (hslot : getA obj.meta.annotations (kFrom c.pfx) ≠ none →
      ∀ u, lookupS s.objects (keyOf obj.meta) = some u → ¬ unowned c.pfx u) :
    safeStep c.pfx s.objects (oaFrom c s key obj).objects := by
  unfold oaFrom
  dsimp only
  cases hres : resolveAnn obj.meta (kFrom c.pfx) with
  | none => exact safeStep_refl _ _
  | some val =>
    dsimp only
    have hfrom := resolveAnn_getA hres
    have hs := hslot hfrom
    split
    case _ s2 heq =>
      have h2 := congrArg (fun q => q.2.objects) heq
      dsimp only at h2
      rw [fetch_objects] at h2
      dsimp only at h2
      exact safeStep_of_eq h2
    case _ s2 heq =>
      have h2 := congrArg (fun q => q.2.objects) heq
      dsimp only at h2
      rw [fetch_objects] at h2
      dsimp only at h2
      have h := doClearObject_safe c s2 obj (Or.inr hfrom) (by
        intro u hu
        rw [← h2] at hu
        exact hs u hu)
      rw [h2]
      exact h
    case _ srcObj s2 heq =>
      have h2 := congrArg (fun q => q.2.objects) heq
      dsimp only at h2
      rw [fetch_objects] at h2
      dsimp only at h2
      have h := replicateObject_safe c s2 obj srcObj hfrom (by
        intro u hu
        rw [← h2] at hu
        exact hs u hu)
      rw [h2]
      exact h

theorem oaCreatedBy_safe (c : Ctx) (s : EngState) (key : String) (obj : Obj)
    (val : String) (hby : getA obj.meta.annotations (kBy c.pfx) ≠ none)
    (hslot : ∀ u, lookupS s.objects (keyOf obj.meta) = some u → ¬ unowned c.pfx u) :
    safeStep c.pfx s.objects (oaCreatedBy c s key obj val).1.objects := by
  unfold oaCreatedBy
  rcases hfet : fetch c.pfx s val false with ⟨fr, s1⟩
  have hso : s1.objects = s.objects := by
    have h2 := fetch_objects c.pfx s val false
    rw [hfet] at h2
    exact h2
  cases fr with
  | errF => exact safeStep_of_eq hso.symm
  | absent =>
    dsimp only
    have h := doDeleteObject_safe c s1 obj (by
      intro u hu
      rw [hso] at hu
      exact hslot u hu)
    rw [hso] at h
    exact h
  | found srcObj =>
    dsimp only
    cases isReplicatedTo c.oracle c.pfx
        ((getI s1.watchedPatterns (keyOf srcObj.meta)).getD [])
        srcObj.meta obj.meta with
    | none => exact safeStep_of_eq hso.symm
    | some b =>
      cases b with
      | false =>
        dsimp only
        have h := doDeleteObject_safe c s1 obj (by
          intro u hu
          rw [hso] at hu
          exact hslot u hu)
        rw [hso] at h
        exact h
      | true =>
        dsimp only
        rcases hins : installObject c s1 "" (some obj) srcObj with ⟨bi, s2⟩
        have hstep : safeStep c.pfx s.objects s2.objects := by
          have h := installObject_safe c s1 "" (some obj) srcObj (by
            intro t ht
            cases ht
            refine ⟨Or.inl hby, ?_⟩
            intro u hu
            rw [hso] at hu
            exact hslot u hu)
          rw [hins] at h
          dsimp only at h
          rw [hso] at h
          exact h
        cases bi with
        | true => exact hstep
        | false =>
          dsimp only
          rcases hf2 : fetch c.pfx s2 key true with ⟨fr2, s3⟩
          have hso2 : s3.objects = s2.objects := by
            have h2 := fetch_objects c.pfx s2 key true
            rw [hf2] at h2
            exact h2
          cases fr2 <;> dsimp only <;>
            exact safeStep_trans hstep (safeStep_of_eq hso2.symm)

theorem oaCreatedBy_slot {c : Ctx} {s : EngState} {key : String} {obj : Obj}
    {val : String} {s4 : EngState} {obj2 : Obj}
    (h : oaCreatedBy c s key obj val = (s4, some obj2)) :
    ownedAnns c.pfx obj2.meta.annotations →
    ∀ u, lookupS s4.objects (keyOf obj2.meta) = some u → ¬ unowned c.pfx u := by
  unfold oaCreatedBy at h
  rcases hfet : fetch c.pfx s val false with ⟨fr, s1⟩
  rw [hfet] at h
  cases fr with
  | errF => simp at h
  | absent => dsimp only at h; simp at h
  | found srcObj =>
    dsimp only at h
    cases hrt : isReplicatedTo c.oracle c.pfx
        ((getI s1.watchedPatterns (keyOf srcObj.meta)).getD [])
        srcObj.meta obj.meta with
    | none => rw [hrt] at h; simp at h
    | some b =>
      rw [hrt] at h
      cases b with
      | false => dsimp only at h; simp at h
      | true =>
        dsimp only at h
        rcases hins : installObject c s1 "" (some obj) srcObj with ⟨bi, s2⟩
        rw [hins] at h
        cases bi with
        | true => dsimp only at h; simp at h
        | false =>
          dsimp only at h
          rcases hf2 : fetch c.pfx s2 key true with ⟨fr2, s3⟩
          rw [hf2] at h
          cases fr2 with
          | errF => dsimp only at h; simp at h
          | absent => dsimp only at h; simp at h
          | found o2 =>
            dsimp only at h
            have hs4 : s3 = s4 := congrArg Prod.fst h
            have ho2 : o2 = obj2 := Option.some.inj (congrArg Prod.snd h)
            subst hs4
            subst ho2
            intro howned u hu
            have h1f : (fetch c.pfx s2 key true).1 = .found o2 := by rw [hf2]
            have hst : s3 = s2 := by
              have h3 := congrArg Prod.snd hf2
              dsimp only at h3
              rw [← h3]
              exact fetch_found_state h1f
            rw [hst, fetch_found_key h1f] at hu
            exact fetch_found_slot_owned h1f howned u hu

theorem oaDeprecation_some_facts {c : Ctx} {s : EngState} {obj : Obj}
    {s1 : EngState} {obj' : Obj}
    (h : oaDeprecation c s obj = (s1, some obj')) :
    keyOf obj'.meta = keyOf obj.meta ∧
    getA obj'.meta.annotations (kBy c.pfx) = getA obj.meta.annotations (kBy c.pfx) ∧
    getA obj'.meta.annotations (kFrom c.pfx) =
      getA obj.meta.annotations (kFrom c.pfx) := by
  unfold oaDeprecation at h
  rcases hud : updDepAnn c.pfx obj.meta.annotations with ⟨r, anns2⟩
  rw [hud] at h
  have hby2 : getA anns2 (kBy c.pfx) = getA obj.meta.annotations (kBy c.pfx) := by
    have h2 := updA_getA_kBy c.pfx obj.meta.annotations
    rw [hud] at h2
    exact h2
  have hfr2 : getA anns2 (kFrom c.pfx) = getA obj.meta.annotations (kFrom c.pfx) := by
    have h2 := updA_getA_kFrom c.pfx obj.meta.annotations
    rw [hud] at h2
    exact h2
  cases r with
  | errU => simp at h
  | okU ch =>
    cases ch with
    | false =>
      dsimp only at h
      have hob : obj' = { obj with meta := { obj.meta with annotations := anns2 } } := by
        have h2 := congrArg Prod.snd h
        dsimp only at h2
        exact (Option.some.inj h2).symm
      subst hob
      exact ⟨rfl, hby2, hfr2⟩
    | true =>
      dsimp only [actUpdate] at h
      rcases hud2 : updDepAnn c.pfx (delA anns2 checkedKey) with ⟨r2, anns3⟩
      rw [hud2] at h
      have hby3 : getA anns3 (kBy c.pfx) = getA (delA anns2 checkedKey) (kBy c.pfx) := by
        have h2 := updA_getA_kBy c.pfx (delA anns2 checkedKey)
        rw [hud2] at h2
        exact h2
      have hfr3 : getA anns3 (kFrom c.pfx) =
          getA (delA anns2 checkedKey) (kFrom c.pfx) := by
        have h2 := updA_getA_kFrom c.pfx (delA anns2 checkedKey)
        rw [hud2] at h2
        exact h2
      cases r2 with
      | errU => simp at h
      | okU ch2 =>
        dsimp only at h
        have h2 := congrArg Prod.snd h
        dsimp only at h2
        have hob := (Option.some.inj h2).symm
        subst hob
        refine ⟨rfl, ?_, ?_⟩
        · rw [show getA anns3 (kBy c.pfx) = getA (delA anns2 checkedKey) (kBy c.pfx)
            from hby3]
          rw [getA_delA_ne _ _ _ (kBy_ne_checked c.pfx)]
          exact hby2
        · rw [show getA anns3 (kFrom c.pfx) = getA (delA anns2 checkedKey) (kFrom c.pfx)
            from hfr3]
          rw [getA_delA_ne _ _ _ (kFrom_ne_checked c.pfx)]
          exact hfr2

theorem oaDeprecation_slot {c : Ctx} {s : EngState} {obj : Obj} {s1 : EngState}
    {obj' : Obj} (h : oaDeprecation c s obj = (s1, some obj'))
    (hinf : lookupS s.objects (keyOf obj.meta) = some obj ∨
      lookupS s.objects (keyOf obj.meta) = none)
    (howned : ownedAnns c.pfx obj'.meta.annotations) :
    ∀ u, lookupS s1.objects (keyOf obj.meta) = some u → ¬ unowned c.pfx u := by
  obtain ⟨hk0, hby0, hfr0⟩ := oaDeprecation_some_facts h
  have hoo : ownedAnns c.pfx obj.meta.annotations := by
    rcases howned with h2 | h2
    · exact Or.inl (hby0 ▸ h2)
    · exact Or.inr (hfr0 ▸ h2)
  unfold oaDeprecation at h
  rcases hud : updDepAnn c.pfx obj.meta.annotations with ⟨r, anns2⟩
  rw [hud] at h
  have hby2 : getA anns2 (kBy c.pfx) = getA obj.meta.annotations (kBy c.pfx) := by
    have h2 := updA_getA_kBy c.pfx obj.meta.annotations
    rw [hud] at h2
    exact h2
  have hfr2 : getA anns2 (kFrom c.pfx) = getA obj.meta.annotations (kFrom c.pfx) := by
    have h2 := updA_getA_kFrom c.pfx obj.meta.annotations
    rw [hud] at h2
    exact h2
  cases r with
  | errU => simp at h
  | okU ch =>
    cases ch with
    | false =>
      dsimp only at h
      have hs1 : s = s1 := congrArg Prod.fst h
      intro u hu
      rcases hinf with hinf | hinf
      · rw [← hs1, hinf] at hu
        have hu2 : u = obj := (Option.some.inj hu).symm
        subst hu2
        exact ownedAnns_not_unowned hoo
      · rw [← hs1, hinf] at hu
        cases hu
    | true =>
      dsimp only [actUpdate] at h
      rcases hud2 : updDepAnn c.pfx (delA anns2 checkedKey) with ⟨r2, anns3⟩
      rw [hud2] at h
      have hs1 : ∀ u, lookupS s1.objects (keyOf obj.meta) = some u →
          ¬ unowned c.pfx u := by
        have hs1e : s1.objects = storePut s.objects
            (actUpdate s { obj with meta := { obj.meta with annotations := anns2 } }
              { obj with meta := { obj.meta with annotations := anns2 } }
              (delA anns2 checkedKey)).1 := by
          cases r2 with
          | errU =>
            have h2 := congrArg Prod.fst h
            dsimp only at h2
            rw [← h2]
            rfl
          | okU ch2 =>
            have h2 := congrArg Prod.fst h
            dsimp only at h2
            rw [← h2]
            rfl
        intro u hu
        rw [hs1e] at hu
        rw [show lookupS (storePut s.objects
            (actUpdate s { obj with meta := { obj.meta with annotations := anns2 } }
              { obj with meta := { obj.meta with annotations := anns2 } }
              (delA anns2 checkedKey)).1) (keyOf obj.meta) =
            some (actUpdate s { obj with meta := { obj.meta with annotations := anns2 } }
              { obj with meta := { obj.meta with annotations := anns2 } }
              (delA anns2 checkedKey)).1 from lookupS_put_self _ _] at hu
        have hu2 := (Option.some.inj hu).symm
        subst hu2
        apply ownedAnns_not_unowned
        show ownedAnns c.pfx (delA anns2 checkedKey)
        rcases hoo with h2 | h2
        · refine Or.inl ?_
          rw [getA_delA_ne _ _ _ (kBy_ne_checked c.pfx), hby2]
          exact h2
        · refine Or.inr ?_
          rw [getA_delA_ne _ _ _ (kFrom_ne_checked c.pfx), hfr2]
          exact h2
      exact hs1

theorem oaDeprecation_dataKeep (c : Ctx) (s : EngState) (obj : Obj)
    (hinf : lookupS s.objects (keyOf obj.meta) = some obj ∨
      lookupS s.objects (keyOf obj.meta) = none) :
    dataKeep c.pfx s.objects (oaDeprecation c s obj).1.objects := by
  unfold oaDeprecation
  rcases hud : updDepAnn c.pfx obj.meta.annotations with ⟨r, anns2⟩
  have hby2 : getA anns2 (kBy c.pfx) = getA obj.meta.annotations (kBy c.pfx) := by
    have h2 := updA_getA_kBy c.pfx obj.meta.annotations
    rw [hud] at h2
    exact h2
  have hfr2 : getA anns2 (kFrom c.pfx) = getA obj.meta.annotations (kFrom c.pfx) := by
    have h2 := updA_getA_kFrom c.pfx obj.meta.annotations
    rw [hud] at h2
    exact h2
  cases r with
  | errU => exact dataKeep_of_eq rfl
  | okU ch =>
    cases ch with
    | false => exact dataKeep_of_eq rfl
    | true =>
      dsimp only [actUpdate]
      rcases hud2 : updDepAnn c.pfx (delA anns2 checkedKey) with ⟨r2, anns3⟩
      cases r2 with
      | errU =>
        dsimp only
        intro k u hl hu
        by_cases hk : k = keyOf obj.meta
        · subst hk
          rcases hinf with hinf | hinf
          swap
          · rw [hinf] at hl
            cases hl
          rw [hinf] at hl
          have hu2 : u = obj := (Option.some.inj hl).symm
          subst hu2
          refine ⟨_, lookupS_put_self _ _, rfl, ?_, ?_⟩
          · show getA (delA anns2 checkedKey) (kBy c.pfx) = none
            rw [getA_delA_ne _ _ _ (kBy_ne_checked c.pfx), hby2]
            exact hu.1
          · show getA (delA anns2 checkedKey) (kFrom c.pfx) = none
            rw [getA_delA_ne _ _ _ (kFrom_ne_checked c.pfx), hfr2]
            exact hu.2
        · refine ⟨u, ?_, rfl, hu⟩
          have hres := lookupS_put_ne s.objects
            (Obj.mk { obj.meta with annotations := delA anns2 checkedKey, resourceVersion := newVer s.verCtr } obj.data)
            k (fun he => hk he)
          exact hres.trans hl
      | okU ch2 =>
        dsimp only
        intro k u hl hu
        by_cases hk : k = keyOf obj.meta
        · subst hk
          rcases hinf with hinf | hinf
          swap
          · rw [hinf] at hl
            cases hl
          rw [hinf] at hl
          have hu2 : u = obj := (Option.some.inj hl).symm
          subst hu2
          refine ⟨_, lookupS_put_self _ _, rfl, ?_, ?_⟩
          · show getA (delA anns2 checkedKey) (kBy c.pfx) = none
            rw [getA_delA_ne _ _ _ (kBy_ne_checked c.pfx), hby2]
            exact hu.1
          · show getA (delA anns2 checkedKey) (kFrom c.pfx) = none
            rw [getA_delA_ne _ _ _ (kFrom_ne_checked c.pfx), hfr2]
            exact hu.2
        · refine ⟨u, ?_, rfl, hu⟩
          have hres := lookupS_put_ne s.objects
            (Obj.mk { obj.meta with annotations := delA anns2 checkedKey, resourceVersion := newVer s.verCtr } obj.data)
            k (fun he => hk he)
          exact hres.trans hl

theorem oaStage2_safe (c : Ctx) (key : String) (obj : Obj) (targetsL : List String)
    (patsL : List TargetPattern) (s1 : EngState) :
    safeStep c.pfx s1.objects (oaStage2 c key obj targetsL patsL s1).objects := by
  unfold oaStage2
  cases getI s1.targetsTo key with
  | none => exact safeStep_refl _ _
  | some ts => exact oaStaleLoop_safe c obj targetsL patsL _ _ s1

theorem oaStage3_safe (c : Ctx) (key : String) (obj : Obj) (s2 : EngState) :
    safeStep c.pfx s2.objects (oaStage3 c key obj s2).objects := by
  unfold oaStage3
  cases getI s2.targetsFrom key with
  | none => exact safeStep_refl _ _
  | some replicas =>
    dsimp only
    split
    · rcases hdl : oaDependentsLoop c key obj
          (replicas.mergeSort (fun a b => decide (a ≤ b))) "" [] s2 with ⟨kept, s'⟩
      dsimp only
      have h := oaDependentsLoop_safe c key obj
        (replicas.mergeSort (fun a b => decide (a ≤ b))) "" [] s2
      rw [hdl] at h
      split
      · exact h
      · exact h
    · exact safeStep_refl _ _

theorem oaStage4_safe (c : Ctx) (key : String) (obj : Obj)
    (tPair : Option (List String × List TargetPattern)) (s3 : EngState)
    (hkeq : keyOf obj.meta = key)
    (hslot3 : ownedAnns c.pfx obj.meta.annotations →
      ∀ u, lookupS s3.objects key = some u → ¬ unowned c.pfx u) :
    safeStep c.pfx s3.objects (oaStage4 c key obj tPair s3).objects := by
  unfold oaStage4
  cases hby : getA obj.meta.annotations (kBy c.pfx) with
  | some val =>
    dsimp only
    have hbyne : getA obj.meta.annotations (kBy c.pfx) ≠ none := by
      rw [hby]
      exact fun he => by cases he
    have hslot : ∀ u, lookupS s3.objects (keyOf obj.meta) = some u →
        ¬ unowned c.pfx u := by
      intro u hu
      rw [hkeq] at hu
      exact hslot3 (Or.inl hbyne) u hu
    rcases hcb : oaCreatedBy c s3 key obj val with ⟨s4, o2⟩
    have hstep : safeStep c.pfx s3.objects s4.objects := by
      have h := oaCreatedBy_safe c s3 key obj val hbyne hslot
      rw [hcb] at h
      exact h
    cases o2 with
    | none => exact hstep
    | some obj2 =>
      dsimp only
      refine safeStep_trans hstep (oaFrom_safe c s4 key obj2 ?_)
      intro hf2 u hu
      exact oaCreatedBy_slot hcb (Or.inr hf2) u hu
  | none =>
    dsimp only
    cases tPair with
    | some pr =>
      rcases pr with ⟨targets, pats⟩
      dsimp only
      exact oaPush_safe c s3 key obj targets pats
    | none =>
      dsimp only
      refine oaFrom_safe c s3 key obj ?_
      intro hf u hu
      rw [hkeq] at hu
      exact hslot3 (Or.inr hf) u hu

theorem handleObjectAdded_dataKeep (c : Ctx) (s0 : EngState) (obj0 : Obj)
    (hinf : lookupS s0.objects (keyOf obj0.meta) = some obj0 ∨
      lookupS s0.objects (keyOf obj0.meta) = none) :
    dataKeep c.pfx s0.objects (handleObjectAdded c s0 obj0).objects := by
  unfold handleObjectAdded
  dsimp only
  rcases hdep : oaDeprecation c (dropWatched s0 (keyOf obj0.meta)) obj0 with ⟨s1, objOpt⟩
  have hd : dataKeep c.pfx s0.objects s1.objects := by
    have h := oaDeprecation_dataKeep c (dropWatched s0 (keyOf obj0.meta)) obj0 hinf
    rw [hdep] at h
    exact h
  cases objOpt with
  | none => exact hd
  | some obj =>
    dsimp only
    obtain ⟨hkeq0, _, _⟩ := oaDeprecation_some_facts hdep
    have hslot1 : ownedAnns c.pfx obj.meta.annotations →
        ∀ u, lookupS s1.objects (keyOf obj0.meta) = some u → ¬ unowned c.pfx u :=
      fun ho => oaDeprecation_slot hdep hinf ho
    cases getReplicationTargets c.oracle c.pfx
        ((getI s1.watchedPatterns (keyOf obj0.meta)).getD []) obj.meta with
    | errG => exact hd
    | noAnn =>
      dsimp only
      refine dataKeep_comp hd
        (safeStep_trans (oaStage2_safe c _ obj _ _ s1)
          (safeStep_trans (oaStage3_safe c _ obj _)
            (oaStage4_safe c _ obj _ _ hkeq0 ?_)))
      intro ho
      exact safeStep_ownesSlot (oaStage3_safe c _ obj _)
        (safeStep_ownesSlot (oaStage2_safe c _ obj _ _ s1) (hslot1 ho))
    | ok t q =>
      dsimp only
      refine dataKeep_comp hd
        (safeStep_trans (oaStage2_safe c _ obj _ _ s1)
          (safeStep_trans (oaStage3_safe c _ obj _)
            (oaStage4_safe c _ obj _ _ hkeq0 ?_)))
      intro ho
      exact safeStep_ownesSlot (oaStage3_safe c _ obj _)
        (safeStep_ownesSlot (oaStage2_safe c _ obj _ _ s1) (hslot1 ho))

theorem odStage1_safe (c : Ctx) (obj : Obj) (key : String) (s0 : EngState) :
    safeStep c.pfx s0.objects (odStage1 c obj key s0).objects := by
  unfold odStage1
  cases getI s0.targetsTo key with
  | none => exact safeStep_refl _ _
  | some ts => exact foldl_delete_safe c obj ts s0

theorem odStage3_safe (c : Ctx) (obj : Obj) (key : String) (s2 : EngState) :
    safeStep c.pfx s2.objects (odStage3 c obj key s2).objects := by
  unfold odStage3
  cases getI s2.targetsFrom key with
  | none => exact safeStep_refl _ _
  | some replicas =>
    dsimp only
    rcases hdl : odClearLoop c obj
        (replicas.mergeSort (fun a b => decide (a ≤ b))) "" [] s2 with ⟨kept, s'⟩
    dsimp only
    split
    · exact (odClearLoop_safeE hdl : safeStep c.pfx s2.objects s'.objects)
    · exact (odClearLoop_safeE hdl : safeStep c.pfx s2.objects s'.objects)

theorem odStage4_safe (c : Ctx) (obj : Obj) (key : String) (s3 : EngState) :
    safeStep c.pfx s3.objects (odStage4 c obj key s3).objects := by
  unfold odStage4
  split
  · exact safeStep_refl _ _
  · exact odInstallLoop_safe c key obj.meta _ s3

theorem handleObjectDeleted_safe (c : Ctx) (s0 : EngState) (obj : Obj) :
    safeStep c.pfx s0.objects (handleObjectDeleted c s0 obj).objects := by
  unfold handleObjectDeleted
  dsimp only
  have h1 := odStage1_safe c obj (keyOf obj.meta) s0
  generalize hg : odStage1 c obj (keyOf obj.meta) s0 = s1x at h1 ⊢
  refine safeStep_trans h1 (safeStep_trans (odStage3_safe c obj (keyOf obj.meta)
    { s1x with targetsTo := eraseI s1x.targetsTo (keyOf obj.meta),
               watchedTargets := eraseI s1x.watchedTargets (keyOf obj.meta),
               watchedPatterns := eraseI s1x.watchedPatterns (keyOf obj.meta) })
    (odStage4_safe c obj (keyOf obj.meta) _))

theorem installObject_refuse (c : Ctx) (s : EngState) (target : String)
    (srcObj u : Obj) (b : Bool) (anns2 : AnnMap)
    (hl : lookupS s.objects target = some u)
    (hud : updDepAnn c.pfx u.meta.annotations = (.okU b, anns2))
    (hby : getA u.meta.annotations (kBy c.pfx) ≠ some (keyOf srcObj.meta)) :
    installObject c s target none srcObj = (true, s) := by
  unfold installObject
  dsimp only
  cases hsp : splitN2 target with
  | nil => rfl
  | cons a l2 =>
    cases l2 with
    | nil => rfl
    | cons d l3 =>
      cases l3 with
      | cons e l4 => rfl
      | nil =>
        dsimp only
        have hfet : fetch c.pfx s target false =
            (.found { u with meta := { u.meta with annotations := anns2 } }, s) := by
          unfold fetch
          rw [hl]
          dsimp only
          rw [hud]
        rw [hfet]
        dsimp only
        have hby2 : getA anns2 (kBy c.pfx) = getA u.meta.annotations (kBy c.pfx) := by
          have h2 := updA_getA_kBy c.pfx u.meta.annotations
          rw [hud] at h2
          exact h2
        have hrep : isReplicatedBy c.pfx
            { u.meta with annotations := anns2 } srcObj.meta = false := by
          unfold isReplicatedBy
          dsimp only
          rw [hby2]
          cases hg : getA u.meta.annotations (kBy c.pfx) with
          | none => rfl
          | some v =>
            dsimp only
            have hne : v ≠ keyOf srcObj.meta := by
              intro he
              exact hby (by rw [hg, he])
            exact beq_eq_false_iff_ne.mpr hne
        rw [hrep]
        rw [if_neg (show ¬(false = true) from by decide)]

/-! ### Claim C1 -/

/-- C1: Non-ownership.  For every engine state whose object store is
consistent with the handled object (the informer stores the handled object
at its own key, or the slot is empty), each of the three event handlers
never mutates the content of a stored object whose annotations carry
neither `replicated-by` nor `replicate-from`: every such object survives
the handler at its key with its data unchanged (`dataKeep`).  In
particular, when `installObject` resolves a target key to an existing
object whose (rewritten) annotations do not carry `replicated-by` equal to
the source's `namespace/name` key, it refuses: it returns `true` and the
state completely unchanged, issuing no mutation. -/
theorem claim1_non_ownership :
    (∀ (c : Ctx) (s0 : EngState) (obj0 : Obj),
        (lookupS s0.objects (keyOf obj0.meta) = some obj0 ∨
          lookupS s0.objects (keyOf obj0.meta) = none) →
        dataKeep c.pfx s0.objects (handleObjectAdded c s0 obj0).objects) ∧
    (∀ (c : Ctx) (s0 : EngState) (obj : Obj),
        dataKeep c.pfx s0.objects (handleObjectDeleted c s0 obj).objects) ∧
    (∀ (c : Ctx) (s : EngState) (nsName : String),
        dataKeep c.pfx s.objects (handleNamespaceAdded c s nsName).objects) ∧
    (∀ (c : Ctx) (s : EngState) (target : String) (srcObj u : Obj) (b : Bool)
        (anns2 : AnnMap),
        lookupS s.objects target = some u →
        updDepAnn c.pfx u.meta.annotations = (.okU b, anns2) →
        getA u.meta.annotations (kBy c.pfx) ≠ some (keyOf srcObj.meta) →
        installObject c s target none srcObj = (true, s)) := by
  refine ⟨?_, ?_, ?_, ?_⟩
  · intro c s0 obj0 hinf
    exact handleObjectAdded_dataKeep c s0 obj0 hinf
  · intro c s0 obj
    exact safeStep_dataKeep (handleObjectDeleted_safe c s0 obj)
  · intro c s nsName
    exact safeStep_dataKeep (handleNamespaceAdded_safe c s nsName)
  · intro c s target srcObj u b anns2 hl hud hby
    exact installObject_refuse c s target srcObj u b anns2 hl hud hby

/-- Concrete context for the C1 witness. -/
def c1c : Ctx := ⟨defaultPfx, false, fun _ => none, "T"⟩

/-- Concrete unowned target for the C1 witness. -/
def c1u : Obj := ⟨⟨"a", "b", "1", [], []⟩, "d"⟩

/-- Concrete source for the C1 witness. -/
def c1src : Obj := ⟨⟨"s", "o", "2", [], []⟩, "sd"⟩

/-- Concrete engine state for the C1 witness. -/
def c1s : EngState := ⟨[c1u], [], [], [], [], [], 0, []⟩

theorem claim1_witness :
    lookupS c1s.objects "a/b" = some c1u ∧
    updDepAnn c1c.pfx c1u.meta.annotations =
      (.okU false, [(checkedKey, "valid")]) ∧
    getA c1u.meta.annotations (kBy c1c.pfx) ≠ some (keyOf c1src.meta) ∧
    installObject c1c c1s "a/b" none c1src = (true, c1s) :=
  ⟨by decide, by decide, by decide,
    claim1_non_ownership.2.2.2 c1c c1s "a/b" c1src c1u false
      [(checkedKey, "valid")] (by decide) (by decide) (by decide)⟩

end Replicator
